import Mathlib

/-!
Verification of the GRASP counterfactual-regret-minimization trainer.

This file shallowly embeds the per-information-set regret table
(`src/GRASP/Trainer/Node.cpp`), the four CFR solvers and the evaluator
(`src/GRASP/Trainer/Trainer.cpp`), and the Kuhn game-reset logic
(`src/Game/Kuhn/Game.cpp`) into Lean, translating C++ `double`
arithmetic into `ℚ`, heap arrays into `List ℚ`, and the
`unordered_map` node stores into association lists.  Sampling from
`std::discrete_distribution` is modelled by an oracle stream of
pre-drawn indices carried in the trainer state (the weight vector the
source hands to the distribution is still computed and exposed, so the
sampling weights themselves are verified).  General recursion over the
game tree is made structural with an explicit fuel parameter; fuel
exhaustion is an explicit error that the C++ (whose recursion is
bounded by the game tree depth) never hits.
-/

namespace GRASP

/-- Information-set keys are opaque byte strings (`std::string` in the
source); modelled as lists of naturals. -/
abbrev Key := List Nat

/-- Model of `Trainer::Node` (`src/GRASP/Trainer/Node.hpp`): per
information set, the action count, cumulative regrets, current
strategy, cumulative strategy sum, cached average strategy, and the
two dirty flags. -/
structure Node where
  actionNum : Nat
  regretSum : List ℚ
  currentStrategy : List ℚ
  strategySum : List ℚ
  averageStrategy : List ℚ
  alreadyCalculated : Bool
  strategyNeedsUpdate : Bool
deriving DecidableEq

/-- Model of the constructor `Node::Node(actionNum)`: zero regrets,
uniform current strategy, zero strategy sums, zeroed average cache,
both flags false. -/
def mkNode (actionNum : Nat) : Node where
  actionNum := actionNum
  regretSum := List.replicate actionNum 0
  currentStrategy := List.replicate actionNum (1 / (actionNum : ℚ))
  strategySum := List.replicate actionNum 0
  averageStrategy := List.replicate actionNum 0
  alreadyCalculated := false
  strategyNeedsUpdate := false

/-- Model of the getter `Node::regretSum(chooseAction)`. -/
def Node.regretSumGet (n : Node) (chooseAction : Nat) : ℚ :=
  n.regretSum.getD chooseAction 0

/-- Model of the setter `Node::regretSum(chooseAction, value)`:
overwrites the entry and raises `strategyNeedsUpdate`. -/
def Node.regretSumSet (n : Node) (chooseAction : Nat) (value : ℚ) : Node :=
  { n with regretSum := n.regretSum.set chooseAction value
           strategyNeedsUpdate := true }

/-- Model of `Node::strategySum(strategy, realizationWeight)`: adds the
weighted strategy into the cumulative sum (a loop over `[0, A)`) and
clears `alreadyCalculated`. -/
def Node.strategySumAdd (n : Node) (strategy : List ℚ) (realizationWeight : ℚ) : Node :=
  { n with strategySum := (List.range n.actionNum).map
             (fun a => n.strategySum.getD a 0 + realizationWeight * strategy.getD a 0)
           alreadyCalculated := false }

/-- Normalizing sum `Z = Σ_a max(regretSum[a], 0)` accumulated by the
first loop of `Node::updateStrategy`. -/
def Node.posRegretSum (n : Node) : ℚ :=
  ((List.range n.actionNum).map (fun a => max (n.regretSum.getD a 0) 0)).sum

/-- Model of `Node::updateStrategy()`: when `strategyNeedsUpdate` is
set, recompute `currentStrategy[a] = max(regretSum[a], 0) / Z`, or the
uniform `1/A` when `Z` is not positive.  The source returns early when
the flag is clear, and (faithfully modelled) never clears the flag. -/
def Node.updateStrategy (n : Node) : Node :=
  if !n.strategyNeedsUpdate then n
  else
    { n with currentStrategy := (List.range n.actionNum).map
               (fun a => if 0 < n.posRegretSum then max (n.regretSum.getD a 0) 0 / n.posRegretSum
                         else 1 / (n.actionNum : ℚ)) }

/-- Model of `Node::calcAverageStrategy()` (and, because the guard is
the same, of the lazy recomputation inside `Node::averageStrategy()`):
when `alreadyCalculated` is clear, recompute `averageStrategy[a] =
strategySum[a] / Σ strategySum`, or uniform when the sum is not
positive, and set the flag. -/
def Node.calcAverageStrategy (n : Node) : Node :=
  if n.alreadyCalculated then n
  else
    { n with averageStrategy := (List.range n.actionNum).map
               (fun a =>
                 if 0 < ((List.range n.actionNum).map (fun b => n.strategySum.getD b 0)).sum
                 then n.strategySum.getD a 0
                      / ((List.range n.actionNum).map (fun b => n.strategySum.getD b 0)).sum
                 else 1 / (n.actionNum : ℚ))
             alreadyCalculated := true }

/-- Model of the serialization `Node::save`: it archives exactly the
first `mActionNum` entries of the stored `mAverageStrategy` array, with
no recomputation. -/
def Node.save (n : Node) : List ℚ :=
  n.averageStrategy.take n.actionNum

/-- Model of the deserialization `Node::load`: the action count is
inferred from the archived vector's length, the average strategy is the
archived vector, the remaining arrays stay at the size-zero state the
default constructor `Node(0)` left them in, and the flags are set to
`alreadyCalculated = true`, `strategyNeedsUpdate = false`. -/
def Node.load (vec : List ℚ) : Node where
  actionNum := vec.length
  regretSum := []
  currentStrategy := []
  strategySum := []
  averageStrategy := vec
  alreadyCalculated := true
  strategyNeedsUpdate := false

/-- Association-list lookup, modelling `unordered_map` reads over
opaque byte-string keys. -/
def findA {β : Type} : List (Key × β) → Key → Option β
  | [], _ => none
  | (k, v) :: rest, key => if k = key then some v else findA rest key

/-- Association-list write, modelling `unordered_map` insert-or-assign. -/
def setA {β : Type} : List (Key × β) → Key → β → List (Key × β)
  | [], key, v => [(key, v)]
  | (k, w) :: rest, key, v =>
      if k = key then (k, v) :: rest else (k, w) :: setA rest key v

/-- The trainer's `mNodeMap`: info-set key to regret table. -/
abbrev NodeMap := List (Key × Node)

/-- Serializing the node map (what `oa << mNodeMap` archives): each
node contributes its `Node::save` payload. -/
def saveNodeMap (m : NodeMap) : List (Key × List ℚ) :=
  m.map (fun kn => (kn.1, kn.2.save))

/-- Deserializing an archived node map (what `ia >> map` rebuilds). -/
def loadNodeMap (d : List (Key × List ℚ)) : NodeMap :=
  d.map (fun kv => (kv.1, Node.load kv.2))

/-- The diagnostic print loop at the top of `Trainer::writeStrategyToBin`
calls `averageStrategy()` on every node of the map, freshening each
stale average cache in place before the archive is written. -/
def touchAverages (m : NodeMap) : NodeMap :=
  m.map (fun kn => (kn.1, kn.2.calcAverageStrategy))

/-- Model of `Trainer::writeStrategyToBin`: the print loop freshens all
average caches, then the map is archived. -/
def writeStrategyToBin (m : NodeMap) : List (Key × List ℚ) :=
  saveNodeMap (touchAverages m)

/-- Error outcomes of the embedded solvers.  `incompatibleMode` models
the fatal `assert(mUpdate[player] && ...)` in the external- and
outcome-sampling recursions; `invalidMode` models `assert(false)` on an
unknown mode string; `outOfFuel` is an artifact of the fuel-based
embedding of the (game-tree-bounded) C++ recursion. -/
inductive CfrError where
  | incompatibleMode
  | invalidMode
  | outOfFuel
deriving DecidableEq

/-- The game capability set the solver consumes (§4.1 of the design;
the public surface of `Kuhn::Game` used by `Trainer`). -/
structure GameIntf (S : Type) where
  playerNum : Nat
  isGameOver : S → Bool
  isChanceNode : S → Bool
  currentPlayer : S → Nat
  actionNum : S → Nat
  takeAction : S → Nat → S
  chanceProbability : S → ℚ
  payoff : S → Nat → ℚ
  infoSetStr : S → Key

/-- Mutable trainer state threaded through the recursions: the node
map `mNodeMap`, the counter `mNodeTouchedCnt`, and an oracle stream of
pre-drawn sampling indices standing in for the `std::mt19937`-backed
`std::discrete_distribution` draws. -/
structure TState where
  nodeMap : NodeMap
  touched : Nat
  rng : List Nat
deriving DecidableEq

/-- Increment of `mNodeTouchedCnt` at the top of every solver call. -/
def TState.touch (st : TState) : TState :=
  { st with touched := st.touched + 1 }

/-- Model of `std::discrete_distribution dist(weights); dist(rng)`:
the drawn index comes from the oracle stream (the distribution of the
concrete generator is not modelled; the weight vector handed to it is
computed by the callers and verified there). -/
def drawIdx (_weights : List ℚ) (st : TState) : Nat × TState :=
  (st.rng.headD 0, { st with rng := st.rng.tail })

/-- The read-only trainer configuration: the game, the `mUpdate`
learning flags, and `fixedAvg player key`, which models the composite
`mFixedStrategies[player].at(key)->averageStrategy()` read of a fixed
player's loaded table. -/
structure TrainerCtx (S : Type) where
  G : GameIntf S
  update : Nat → Bool
  fixedAvg : Nat → Key → List ℚ

/-- Model of `Node *node = mNodeMap[infoSet]; if (node == nullptr)
{ node = new Node(actionNum); mNodeMap[infoSet] = node; }`. -/
def fetchOrCreate (m : NodeMap) (key : Key) (actionNum : Nat) : Node × NodeMap :=
  match findA m key with
  | some n => (n, m)
  | none => (mkNode actionNum, setA m key (mkNode actionNum))

/-- Chance-node loop of `Trainer::CFR`: enumerate all chance outcomes,
weight each child by `chanceProbability()` of the successor, and recurse
with `po` multiplied by it. -/
def cfrChanceFold {S : Type} (G : GameIntf S)
    (recur : S → ℚ → TState → Except CfrError (ℚ × TState)) (g : S) (po : ℚ) :
    List Nat → ℚ → TState → Except CfrError (ℚ × TState)
  | [], acc, st => .ok (acc, st)
  | a :: rest, acc, st =>
    match recur (G.takeAction g a) (po * G.chanceProbability (G.takeAction g a)) st with
    | .error e => .error e
    | .ok (u, st2) =>
        cfrChanceFold G recur g po rest (acc + G.chanceProbability (G.takeAction g a) * u) st2

/-- Fixed-actor loop of `Trainer::CFR`: expectation over the fixed
player's average strategy, multiplied into `po`. -/
def cfrFixedFold {S : Type} (G : GameIntf S)
    (recur : S → ℚ → TState → Except CfrError (ℚ × TState)) (g : S) (avg : List ℚ) (po : ℚ) :
    List Nat → ℚ → TState → Except CfrError (ℚ × TState)
  | [], acc, st => .ok (acc, st)
  | a :: rest, acc, st =>
    match recur (G.takeAction g a) (po * avg.getD a 0) st with
    | .error e => .error e
    | .ok (u, st2) => cfrFixedFold G recur g avg po rest (acc + avg.getD a 0 * u) st2

/-- Learning-node children loop shared by `Trainer::CFR` and
`Trainer::chanceSamplingCFR`: recurse on every action, passing reach
`(pi·σ[a], po)` when the actor is the learning player and
`(pi, po·σ[a])` otherwise, and collect the per-action utilities. -/
def cfrChildren {S : Type} (G : GameIntf S)
    (recur : S → ℚ → ℚ → TState → Except CfrError (ℚ × TState))
    (g : S) (isLearner : Bool) (strategy : List ℚ) (pi po : ℚ) :
    List Nat → TState → Except CfrError (List ℚ × TState)
  | [], st => .ok ([], st)
  | a :: rest, st =>
    match (if isLearner then recur (G.takeAction g a) (pi * strategy.getD a 0) po st
           else recur (G.takeAction g a) pi (po * strategy.getD a 0) st) with
    | .error e => .error e
    | .ok (u, st2) =>
      match cfrChildren G recur g isLearner strategy pi po rest st2 with
      | .error e => .error e
      | .ok (us, st3) => .ok (u :: us, st3)

/-- The node value `Σ_{a<len} xs[a]·ys[a]` accumulated by the solver
loops (`nodeUtil += strategy[a] * utils[a]`). -/
def dotRange (xs ys : List ℚ) (len : Nat) : ℚ :=
  ((List.range len).map (fun a => xs.getD a 0 * ys.getD a 0)).sum

/-- Learner regret loop of `Trainer::CFR` / `chanceSamplingCFR`:
`regretSum[a] += po · (utils[a] − nodeUtil)` for every listed action. -/
def applyRegretUpdates (po nodeUtil : ℚ) (utils : List ℚ) : Node → List Nat → Node
  | node, [] => node
  | node, a :: rest =>
      applyRegretUpdates po nodeUtil utils
        (node.regretSumSet a (node.regretSumGet a + po * (utils.getD a 0 - nodeUtil))) rest

/-- Learner regret loop of `Trainer::externalSamplingCFR`:
`regretSum[a] += utils[a] − nodeUtil` (no reach weight). -/
def applyRegretUpdatesES (nodeUtil : ℚ) (utils : List ℚ) : Node → List Nat → Node
  | node, [] => node
  | node, a :: rest =>
      applyRegretUpdatesES nodeUtil utils
        (node.regretSumSet a (node.regretSumGet a + (utils.getD a 0 - nodeUtil))) rest

/-- Learner regret loop of `Trainer::outcomeSamplingCFR`: with
`w = util·po` and `sChosen = σ[a']`, add `w·(1−sChosen)·pTail` at the
sampled action and `−w·pTail·sChosen` elsewhere. -/
def applyRegretUpdatesOS (w pTail sChosen : ℚ) (chooseAction : Nat) : Node → List Nat → Node
  | node, [] => node
  | node, a :: rest =>
      applyRegretUpdatesOS w pTail sChosen chooseAction
        (node.regretSumSet a (node.regretSumGet a +
          (if a = chooseAction then w * (1 - sChosen) * pTail else -w * pTail * sChosen))) rest

/-- Model of `Trainer::CFR` (vanilla CFR), `src/GRASP/Trainer/Trainer.cpp`.
The live `Node *` pointer through which the learner updates are applied
after the children return is modelled by re-reading the binding from
the updated map (`(findA …).getD node`; the binding is inserted before
the recursion and never erased, so the default is never taken).  The
strategy array is snapshotted before the recursion; vanilla CFR never
calls `updateStrategy` inside the recursion, so the snapshot agrees
with the pointer the source holds. -/
def CFR {S : Type} (C : TrainerCtx S) :
    Nat → S → Nat → ℚ → ℚ → TState → Except CfrError (ℚ × TState)
  | 0, _, _, _, _, _ => .error .outOfFuel
  | fuel + 1, g, playerIndex, pi, po, st =>
    let st0 := st.touch
    if C.G.isGameOver g then .ok (C.G.payoff g playerIndex, st0)
    else if C.G.isChanceNode g then
      cfrChanceFold C.G (fun g2 po2 st2 => CFR C fuel g2 playerIndex pi po2 st2) g po
        (List.range (C.G.actionNum g)) 0 st0
    else
      let infoSet := C.G.infoSetStr g
      let player := C.G.currentPlayer g
      if !C.update player then
        cfrFixedFold C.G (fun g2 po2 st2 => CFR C fuel g2 playerIndex pi po2 st2) g
          (C.fixedAvg player infoSet) po (List.range (C.G.actionNum g)) 0 st0
      else
        let fc := fetchOrCreate st0.nodeMap infoSet (C.G.actionNum g)
        let st1 : TState := { st0 with nodeMap := fc.2 }
        let strategy := fc.1.currentStrategy
        match cfrChildren C.G (fun g2 pi2 po2 st2 => CFR C fuel g2 playerIndex pi2 po2 st2) g
            (player == playerIndex) strategy pi po (List.range (C.G.actionNum g)) st1 with
        | .error e => .error e
        | .ok (us, st2) =>
          let nodeUtil := dotRange strategy us (C.G.actionNum g)
          if player == playerIndex then
            let nd0 := (findA st2.nodeMap infoSet).getD fc.1
            let nd1 := applyRegretUpdates po nodeUtil us nd0 (List.range (C.G.actionNum g))
            .ok (nodeUtil,
                 { st2 with nodeMap := setA st2.nodeMap infoSet (nd1.strategySumAdd strategy pi) })
          else .ok (nodeUtil, st2)

/-- Model of `Trainer::chanceSamplingCFR`: identical to vanilla except
there is no chance branch (callers sample chance at the root) and a
fixed actor plays a single action sampled from its average strategy. -/
def chanceSamplingCFR {S : Type} (C : TrainerCtx S) :
    Nat → S → Nat → ℚ → ℚ → TState → Except CfrError (ℚ × TState)
  | 0, _, _, _, _, _ => .error .outOfFuel
  | fuel + 1, g, playerIndex, pi, po, st =>
    let st0 := st.touch
    if C.G.isGameOver g then .ok (C.G.payoff g playerIndex, st0)
    else
      let infoSet := C.G.infoSetStr g
      let player := C.G.currentPlayer g
      if !C.update player then
        let dr := drawIdx (C.fixedAvg player infoSet) st0
        chanceSamplingCFR C fuel (C.G.takeAction g dr.1) playerIndex pi po dr.2
      else
        let fc := fetchOrCreate st0.nodeMap infoSet (C.G.actionNum g)
        let st1 : TState := { st0 with nodeMap := fc.2 }
        let strategy := fc.1.currentStrategy
        match cfrChildren C.G (fun g2 pi2 po2 st2 => chanceSamplingCFR C fuel g2 playerIndex pi2 po2 st2) g
            (player == playerIndex) strategy pi po (List.range (C.G.actionNum g)) st1 with
        | .error e => .error e
        | .ok (us, st2) =>
          let nodeUtil := dotRange strategy us (C.G.actionNum g)
          if player == playerIndex then
            let nd0 := (findA st2.nodeMap infoSet).getD fc.1
            let nd1 := applyRegretUpdates po nodeUtil us nd0 (List.range (C.G.actionNum g))
            .ok (nodeUtil,
                 { st2 with nodeMap := setA st2.nodeMap infoSet (nd1.strategySumAdd strategy pi) })
          else .ok (nodeUtil, st2)

/-- Children loop of the external-sampling learner branch: recurse on
every action with no reach scalars. -/
def esChildren {S : Type} (G : GameIntf S)
    (recur : S → TState → Except CfrError (ℚ × TState)) (g : S) :
    List Nat → TState → Except CfrError (List ℚ × TState)
  | [], st => .ok ([], st)
  | a :: rest, st =>
    match recur (G.takeAction g a) st with
    | .error e => .error e
    | .ok (u, st2) =>
      match esChildren G recur g rest st2 with
      | .error e => .error e
      | .ok (us, st3) => .ok (u :: us, st3)

/-- Model of `Trainer::externalSamplingCFR`.  A fixed-strategy actor is
fatal (`assert(mUpdate[player] …)`), modelled as `incompatibleMode`.
Every visited node is refreshed (`updateStrategy`) on entry; the
refreshed table is written back to the map, modelling the in-place
pointer mutation. -/
def externalSamplingCFR {S : Type} (C : TrainerCtx S) :
    Nat → S → Nat → TState → Except CfrError (ℚ × TState)
  | 0, _, _, _ => .error .outOfFuel
  | fuel + 1, g, playerIndex, st =>
    let st0 := st.touch
    if C.G.isGameOver g then .ok (C.G.payoff g playerIndex, st0)
    else
      let infoSet := C.G.infoSetStr g
      let player := C.G.currentPlayer g
      if !C.update player then .error .incompatibleMode
      else
        let fc := fetchOrCreate st0.nodeMap infoSet (C.G.actionNum g)
        let node1 := fc.1.updateStrategy
        let st1 : TState := { st0 with nodeMap := setA fc.2 infoSet node1 }
        let strategy := node1.currentStrategy
        if player != playerIndex then
          let dr := drawIdx strategy st1
          match externalSamplingCFR C fuel (C.G.takeAction g dr.1) playerIndex dr.2 with
          | .error e => .error e
          | .ok (util, st2) =>
            let nd0 := (findA st2.nodeMap infoSet).getD node1
            .ok (util,
                 { st2 with nodeMap := setA st2.nodeMap infoSet (nd0.strategySumAdd strategy 1) })
        else
          match esChildren C.G (fun g2 st2 => externalSamplingCFR C fuel g2 playerIndex st2) g
              (List.range (C.G.actionNum g)) st1 with
          | .error e => .error e
          | .ok (us, st2) =>
            let nodeUtil := dotRange strategy us (C.G.actionNum g)
            let nd0 := (findA st2.nodeMap infoSet).getD node1
            let nd1 := applyRegretUpdatesES nodeUtil us nd0 (List.range (C.G.actionNum g))
            .ok (nodeUtil, { st2 with nodeMap := setA st2.nodeMap infoSet nd1 })

/-- The outcome-sampling exploration constant `epsilon = 0.6`. -/
def osEpsilon : ℚ := 3 / 5

/-- Sampling weights of `Trainer::outcomeSamplingCFR`: for the learner,
`q[a] = ε/A + (1−ε)·σ[a]`; for any other learning actor, `q[a] = σ[a]`. -/
def osProbability (isLearner : Bool) (strategy : List ℚ) (actionNum : Nat) : List ℚ :=
  if isLearner then
    (List.range actionNum).map
      (fun a => osEpsilon / (actionNum : ℚ) + (1 - osEpsilon) * strategy.getD a 0)
  else
    (List.range actionNum).map (fun a => strategy.getD a 0)

/-- Model of `Trainer::outcomeSamplingCFR`.  Returns the pair
`(util, tail)`; at a terminal state that is `(payoff(learner)/s, 1)`. -/
def outcomeSamplingCFR {S : Type} (C : TrainerCtx S) :
    Nat → S → Nat → Nat → ℚ → ℚ → ℚ → TState → Except CfrError ((ℚ × ℚ) × TState)
  | 0, _, _, _, _, _, _, _ => .error .outOfFuel
  | fuel + 1, g, playerIndex, iteration, pi, po, s, st =>
    let st0 := st.touch
    if C.G.isGameOver g then .ok ((C.G.payoff g playerIndex / s, 1), st0)
    else
      let infoSet := C.G.infoSetStr g
      let player := C.G.currentPlayer g
      if !C.update player then .error .incompatibleMode
      else
        let fc := fetchOrCreate st0.nodeMap infoSet (C.G.actionNum g)
        let node1 := fc.1.updateStrategy
        let st1 : TState := { st0 with nodeMap := setA fc.2 infoSet node1 }
        let strategy := node1.currentStrategy
        let probability := osProbability (player == playerIndex) strategy (C.G.actionNum g)
        let dr := drawIdx probability st1
        let chooseAction := dr.1
        match outcomeSamplingCFR C fuel (C.G.takeAction g chooseAction) playerIndex iteration
            (pi * (if player == playerIndex then strategy.getD chooseAction 0 else 1))
            (po * (if player == playerIndex then 1 else strategy.getD chooseAction 0))
            (s * probability.getD chooseAction 0) dr.2 with
        | .error e => .error e
        | .ok ((util, pTail), st2) =>
          if player == playerIndex then
            let nd0 := (findA st2.nodeMap infoSet).getD node1
            let nd1 := applyRegretUpdatesOS (util * po) pTail (strategy.getD chooseAction 0)
                         chooseAction nd0 (List.range (C.G.actionNum g))
            .ok ((util, pTail * strategy.getD chooseAction 0),
                 { st2 with nodeMap := setA st2.nodeMap infoSet nd1 })
          else
            let nd0 := (findA st2.nodeMap infoSet).getD node1
            let nd1 := nd0.strategySumAdd strategy (po / s)
            .ok ((util, pTail * strategy.getD chooseAction 0),
                 { st2 with nodeMap := setA st2.nodeMap infoSet nd1 })

/-- The evaluator's memoized best-response strategies
(`bestResponseStrategies`), keyed by info set. -/
abbrev Brs := List (Key × List ℚ)

/-- Expectation loops of `Trainer::CalculateBestResponseValue` (the
chance branch and the `actor ≠ p` branch): recurse on every action with
reach `po · w[a]` and accumulate `Σ w[a]·value`. -/
def brExpectFold {S : Type} (recur : S → ℚ → Brs → Option (ℚ × Brs)) (childOf : Nat → S)
    (weightOf : Nat → ℚ) (po : ℚ) : List Nat → ℚ → Brs → Option (ℚ × Brs)
  | [], acc, brs => some (acc, brs)
  | a :: rest, acc, brs =>
    match recur (childOf a) (po * weightOf a) brs with
    | none => none
    | some (u, brs2) => brExpectFold recur childOf weightOf po rest (acc + weightOf a * u) brs2

/-- Per-action evaluation loop of the best-response pass (the inner
`for a` loops): recurse on every action and collect the values, with a
fixed reach. -/
def brActionsLoop {S : Type} (recur : S → Brs → Option (ℚ × Brs)) (childOf : Nat → S) :
    List Nat → Brs → Option (List ℚ × Brs)
  | [], brs => some ([], brs)
  | a :: rest, brs =>
    match recur (childOf a) brs with
    | none => none
    | some (u, brs2) =>
      match brActionsLoop recur childOf rest brs2 with
      | none => none
      | some (us, brs3) => some (u :: us, brs3)

/-- Outer aggregation loop over the `(state', π')` entries stored for
the info-set key: for each entry, evaluate all actions from that state
with reach `π'` and add `π'·brValues[a]` into `actionValues[a]`.  The
per-entry value rows (the local `brValues` arrays of the source) are
returned alongside the aggregate. -/
def brEntriesLoop {S : Type} (G : GameIntf S) (recur : S → ℚ → Brs → Option (ℚ × Brs))
    (actionNum : Nat) :
    List (S × ℚ) → List ℚ → Brs → Option (List ℚ × List (List ℚ) × Brs)
  | [], actionValues, brs => some (actionValues, [], brs)
  | entry :: rest, actionValues, brs =>
    match brActionsLoop (fun g2 brs2 => recur g2 entry.2 brs2) (fun a => G.takeAction entry.1 a)
        (List.range actionNum) brs with
    | none => none
    | some (brValues, brs2) =>
      match brEntriesLoop G recur actionNum rest
          ((List.range actionNum).map
            (fun a => actionValues.getD a 0 + entry.2 * brValues.getD a 0)) brs2 with
      | none => none
      | some (av, mat, brs3) => some (av, brValues :: mat, brs3)

/-- The argmax scan of the best-response pass: `brAction = 0`, then
`if (actionValues[a] > actionValues[brAction]) brAction = a` over the
listed actions — the lowest index wins ties. -/
def argmaxScan (v : List ℚ) : List Nat → Nat → Nat
  | [], b => b
  | a :: rest, b => argmaxScan v rest (if v.getD b 0 < v.getD a 0 then a else b)

/-- The memoized one-hot best-response strategy
(`vector(actionNum, 0.0)` with a `1.0` at the chosen action). -/
def onehot (actionNum brAction : Nat) : List ℚ :=
  (List.replicate actionNum 0).set brAction 1

/-- Model of `Trainer::CalculateBestResponseValue`.  `strategies p g`
models `strategies[p](game)` (the per-player strategy callback);
`infoSets` models the reconstructed info sets (`infoSets.at(key)`,
a total function here; the claims never query an absent key). -/
def CalculateBestResponseValue {S : Type} (G : GameIntf S) (strategies : Nat → S → List ℚ)
    (infoSets : Key → List (S × ℚ)) :
    Nat → S → Nat → ℚ → Brs → Option (ℚ × Brs)
  | 0, _, _, _, _ => none
  | fuel + 1, g, playerIndex, po, brs =>
    if G.isGameOver g then some (G.payoff g playerIndex, brs)
    else if G.isChanceNode g then
      brExpectFold
        (fun g2 po2 brs2 =>
          CalculateBestResponseValue G strategies infoSets fuel g2 playerIndex po2 brs2)
        (fun a => G.takeAction g a) (fun a => G.chanceProbability (G.takeAction g a)) po
        (List.range (G.actionNum g)) 0 brs
    else
      let player := G.currentPlayer g
      if player == playerIndex then
        let infoSet := G.infoSetStr g
        let step1 : Option Brs :=
          match findA brs infoSet with
          | some _ => some brs
          | none =>
            match brEntriesLoop G
                (fun g2 po2 brs2 =>
                  CalculateBestResponseValue G strategies infoSets fuel g2 playerIndex po2 brs2)
                (G.actionNum g) (infoSets infoSet)
                (List.replicate (G.actionNum g) 0) brs with
            | none => none
            | some (actionValues, _, brs1) =>
              let brAction := argmaxScan actionValues (List.range (G.actionNum g)) 0
              some (setA brs1 infoSet (onehot (G.actionNum g) brAction))
        match step1 with
        | none => none
        | some brs2 =>
          match brActionsLoop
              (fun g2 brs3 =>
                CalculateBestResponseValue G strategies infoSets fuel g2 playerIndex po brs3)
              (fun a => G.takeAction g a) (List.range (G.actionNum g)) brs2 with
          | none => none
          | some (utils, brs3) =>
            match findA brs3 infoSet with
            | none => none
            | some bstrat => some (dotRange utils bstrat (G.actionNum g), brs3)
      else
        brExpectFold
          (fun g2 po2 brs2 =>
            CalculateBestResponseValue G strategies infoSets fuel g2 playerIndex po2 brs2)
          (fun a => G.takeAction g a) (fun a => (strategies player g).getD a 0) po
          (List.range (G.actionNum g)) 0 brs

/-- Trainer configuration together with the game-reset entry point
`mGame->resetGame(skip)` (which consumes the trainer's shared RNG, so
it maps a game and a trainer state to new ones). -/
structure TrainCtx (S : Type) extends TrainerCtx S where
  reset : Bool → S → TState → S × TState

/-- The end-of-iteration batch refresh of `Trainer::train`
(`for (itr : mNodeMap) itr.second->updateStrategy()`). -/
def batchUpdateStrategy (m : NodeMap) : NodeMap :=
  m.map (fun kn => (kn.1, kn.2.updateStrategy))

/-- Model of the per-iteration, per-learning-player body of
`Trainer::train`: mode dispatch, game reset, solver invocation with
unit reach scalars, and (for `standard` and `chance`) the batch
refresh of every table in the node map. -/
def trainStep {S : Type} (C : TrainCtx S) (fuel : Nat) (mode : String)
    (iteration playerIndex : Nat) (g : S) (st : TState) : Except CfrError (ℚ × S × TState) :=
  if mode = "standard" then
    let rs := C.reset false g st
    match CFR C.toTrainerCtx fuel rs.1 playerIndex 1 1 rs.2 with
    | .error e => .error e
    | .ok (u, st2) => .ok (u, rs.1, { st2 with nodeMap := batchUpdateStrategy st2.nodeMap })
  else
    let rs := C.reset true g st
    if mode = "chance" then
      match chanceSamplingCFR C.toTrainerCtx fuel rs.1 playerIndex 1 1 rs.2 with
      | .error e => .error e
      | .ok (u, st2) => .ok (u, rs.1, { st2 with nodeMap := batchUpdateStrategy st2.nodeMap })
    else if mode = "external" then
      match externalSamplingCFR C.toTrainerCtx fuel rs.1 playerIndex rs.2 with
      | .error e => .error e
      | .ok (u, st2) => .ok (u, rs.1, st2)
    else if mode = "outcome" then
      match outcomeSamplingCFR C.toTrainerCtx fuel rs.1 playerIndex iteration 1 1 1 rs.2 with
      | .error e => .error e
      | .ok (ut, st2) => .ok (ut.1, rs.1, st2)
    else .error .invalidMode

/-- Kuhn constants (`src/Game/Kuhn/Constant.hpp`). -/
def kuhnNumPlayers : Nat := 2

/-- Number of cards: one more than the number of players. -/
def kuhnNumCards : Nat := kuhnNumPlayers + 1

/-- State of `Kuhn::Game` (`src/Game/Kuhn/Game.hpp`), in the fields the
reset logic touches.  `currentPlayerIndex` is an `int` in the source
(it can be `-1` when fresh and `numPlayers+1` at the chance player). -/
structure KuhnGame where
  playerCards : List Nat
  playerPayoff : List ℚ
  currentPlayerIndex : Int
  chanceProb : ℚ
  firstBetTurnIndex : Int
  playerBetNumber : Nat
  turnIndex : Nat
  gameOver : Bool
  mInfoSets : List (List Nat)
deriving DecidableEq

/-- Array swap used by the Fisher–Yates shuffle. -/
def swapL (l : List Nat) (i j : Nat) : List Nat :=
  (l.set i (l.getD j 0)).set j (l.getD i 0)

/-- The shuffle loop of `Kuhn::Game::resetGame`: for `c1` from
`numCards−1` down to `1`, swap `cards[c1]` with `cards[rng() % (c1+1)]`,
consuming one RNG draw per step (the `std::mt19937` outputs are the
oracle list). -/
def kuhnShuffle : Nat → List Nat → List Nat → List Nat × List Nat
  | 0, cards, rng => (cards, rng)
  | c1 + 1, cards, rng =>
      kuhnShuffle c1 (swapL cards (c1 + 1) (rng.headD 0 % (c1 + 2))) rng.tail

/-- The per-player initial info-set assignment
`mInfoSets[i][0] = playerCards[i]`. -/
def setInfoSetCards (infoSets : List (List Nat)) (cards : List Nat) : List (List Nat) :=
  (List.range kuhnNumPlayers).map (fun i => (infoSets.getD i []).set 0 (cards.getD i 0))

/-- Model of `Kuhn::Game::resetGame(skipChanceAction)`: with
`skipChanceAction = false` it only hands the turn to the chance player
(`currentPlayerIndex = numPlayers + 1`); with `true` it shuffles a
fresh deck, deals, and resets the betting state with player `0` to
act. -/
def KuhnGame.resetGame (g : KuhnGame) (skipChanceAction : Bool) (rng : List Nat) :
    KuhnGame × List Nat :=
  if !skipChanceAction then
    ({ g with currentPlayerIndex := (kuhnNumPlayers : Int) + 1 }, rng)
  else
    let sh := kuhnShuffle (kuhnNumCards - 1) (List.range kuhnNumCards) rng
    ({ g with playerCards := sh.1
              mInfoSets := setInfoSetCards g.mInfoSets sh.1
              turnIndex := 0
              currentPlayerIndex := 0
              firstBetTurnIndex := -1
              playerBetNumber := 0
              gameOver := false }, sh.2)

/-- Model of `Kuhn::Game::isChanceNode`. -/
def KuhnGame.isChanceNode (g : KuhnGame) : Bool :=
  g.currentPlayerIndex == (kuhnNumPlayers : Int) + 1

/-- Structural well-formedness of a table: every array has exactly
`actionNum` entries, as the C++ heap arrays do by construction. -/
def NodeWF (n : Node) : Prop :=
  n.regretSum.length = n.actionNum ∧ n.currentStrategy.length = n.actionNum ∧
  n.strategySum.length = n.actionNum ∧ n.averageStrategy.length = n.actionNum

/-- Well-formedness of a node map. -/
def MapWF (m : NodeMap) : Prop :=
  ∀ k n, findA m k = some n → NodeWF n

/-- Sign invariant of a table: the current strategy and the cumulative
strategy sum are entrywise non-negative. -/
def NodeNNeg (n : Node) : Prop :=
  (∀ a, 0 ≤ n.currentStrategy.getD a 0) ∧ (∀ a, 0 ≤ n.strategySum.getD a 0)

/-- Sign invariant of a node map. -/
def MapNNeg (m : NodeMap) : Prop :=
  ∀ k n, findA m k = some n → NodeNNeg n

/-- An individual `strategySum` entry viewed over the whole map; a key
with no table yet reads as the zero the fresh table will start from. -/
def ssEntry (m : NodeMap) (k : Key) (a : Nat) : ℚ :=
  match findA m k with
  | some n => n.strategySum.getD a 0
  | none => 0

/-- A tiny concrete game for exercising the generic theorems: state
`0` is the root where player `0` picks between two terminal successors
`1` and `2`; any nonzero state is terminal with payoff `±s`. -/
def miniG : GameIntf Nat where
  playerNum := 2
  isGameOver := fun s => s != 0
  isChanceNode := fun _ => false
  currentPlayer := fun _ => 0
  actionNum := fun _ => 2
  takeAction := fun s a => 3 * s + a + 1
  chanceProbability := fun _ => 1
  payoff := fun s p => if p = 0 then (s : ℚ) else -(s : ℚ)
  infoSetStr := fun s => [s]

/-- Trainer context over the tiny game with every player learning. -/
def miniCtx : TrainerCtx Nat where
  G := miniG
  update := fun _ => true
  fixedAvg := fun _ _ => []

/-- Trainer context over the tiny game where every player is a
fixed-strategy (non-learning) player. -/
def miniCtxFixed : TrainerCtx Nat where
  G := miniG
  update := fun _ => false
  fixedAvg := fun _ _ => []

/-- Train context over the tiny game with an identity reset. -/
def miniTrainCtx : TrainCtx Nat where
  toTrainerCtx := miniCtx
  reset := fun _ g st => (g, st)

/-- An empty trainer state. -/
def st0 : TState where
  nodeMap := []
  touched := 0
  rng := []

/-- A fixed strategy callback for the tiny game. -/
def miniStrategies : Nat → Nat → List ℚ :=
  fun _ _ => [1/2, 1/2]

/-- Reconstructed info sets for the tiny game: the root's key holds the
single pair (root state, reach 1). -/
def miniInfoSets : Key → List (Nat × ℚ) :=
  fun k => if k = [0] then [((0 : Nat), (1 : ℚ))] else []

/-- The state invariant carried through every solver: all tables are
structurally well-formed and sign-correct. -/
def StInv (st : TState) : Prop :=
  MapWF st.nodeMap ∧ MapNNeg st.nodeMap

/-- Entrywise monotonicity of the cumulative strategy sums between two
trainer states. -/
def SsMono (st st' : TState) : Prop :=
  ∀ k a, ssEntry st.nodeMap k a ≤ ssEntry st'.nodeMap k a

/-- The table produced at the tiny game's root by one vanilla CFR
iteration with unit reach: regrets `±1/2`, strategy sum `[1/2, 1/2]`. -/
def cfrWitnessNode : Node where
  actionNum := 2
  regretSum := [-(1/2 : ℚ), 1/2]
  currentStrategy := [1/2, 1/2]
  strategySum := [1/2, 1/2]
  averageStrategy := [0, 0]
  alreadyCalculated := false
  strategyNeedsUpdate := true

/-- The trainer state after that iteration: three nodes touched. -/
def cfrWitnessState : TState where
  nodeMap := [([0], cfrWitnessNode)]
  touched := 3
  rng := []

/-! Generic list lemmas used throughout. -/

theorem getD_map_range (f : Nat → ℚ) (n a : Nat) (d : ℚ) :
    ((List.range n).map f).getD a d = if a < n then f a else d := by
  by_cases h : a < n
  · rw [List.getD_eq_getElem?_getD]
    simp [List.getElem?_map, List.getElem?_range h, h]
  · rw [List.getD_eq_default _ _ (by simpa using Nat.le_of_not_lt h)]
    simp [h]

theorem getD_set_self (l : List ℚ) (i : Nat) (v d : ℚ) (h : i < l.length) :
    (l.set i v).getD i d = v := by
  rw [List.getD_eq_getElem?_getD, List.getElem?_set_self (by simpa using h)]
  rfl

theorem getD_set_other (l : List ℚ) (i j : Nat) (v d : ℚ) (h : i ≠ j) :
    (l.set i v).getD j d = l.getD j d := by
  rw [List.getD_eq_getElem?_getD, List.getElem?_set_ne h, ← List.getD_eq_getElem?_getD]

theorem getD_replicate (n : Nat) (x : ℚ) (a : Nat) (d : ℚ) :
    (List.replicate n x).getD a d = if a < n then x else d := by
  by_cases h : a < n
  · rw [List.getD_eq_getElem?_getD, List.getElem?_replicate]
    simp [h]
  · rw [List.getD_eq_default _ _ (by simpa using Nat.le_of_not_lt h)]
    simp [h]

theorem findA_mapVal {β γ : Type} (f : β → γ) (m : List (Key × β)) (k : Key) :
    findA (m.map (fun kv => (kv.1, f kv.2))) k = (findA m k).map f := by
  induction m with
  | nil => rfl
  | cons hd tl ih => by_cases h : hd.1 = k <;> simp [findA, h, ih]

theorem findA_setA_self {β : Type} (m : List (Key × β)) (k : Key) (v : β) :
    findA (setA m k v) k = some v := by
  induction m with
  | nil => simp [setA, findA]
  | cons hd tl ih =>
      by_cases h : hd.1 = k <;> simp [setA, findA, h, ih]

theorem findA_setA_other {β : Type} (m : List (Key × β)) (k k' : Key) (v : β) (h : k ≠ k') :
    findA (setA m k v) k' = findA m k' := by
  induction m with
  | nil => simp [setA, findA, h]
  | cons hd tl ih =>
      by_cases hh : hd.1 = k
      · simp [setA, findA, hh, h]
      · by_cases hk : hd.1 = k' <;> simp [setA, findA, hh, hk, ih, Ne.symm h]

/-! Claim C3 — regret matching in `refreshStrategy` (`Node::updateStrategy`). -/

/-- C3: for a table whose `strategyDirty` flag is set, `refreshStrategy`
recomputes `currentStrategy[a] = max(regretSum[a], 0) / Z` with
`Z = Σ_a max(regretSum[a], 0)`; when `Z = 0` — equivalently, when every
cumulative regret is non-positive — every entry becomes the uniform
`1/A`.  (`Z` is never negative, so the two cases are exhaustive.) -/
theorem refreshStrategy_regret_matching (n : Node) (h : n.strategyNeedsUpdate = true) :
    0 ≤ n.posRegretSum
  ∧ (0 < n.posRegretSum → ∀ a, a < n.actionNum →
      (n.updateStrategy).currentStrategy.getD a 0 = max (n.regretSum.getD a 0) 0 / n.posRegretSum)
  ∧ (n.posRegretSum = 0 → ∀ a, a < n.actionNum →
      (n.updateStrategy).currentStrategy.getD a 0 = 1 / (n.actionNum : ℚ))
  ∧ (n.posRegretSum = 0 ↔ ∀ a, a < n.actionNum → n.regretSum.getD a 0 ≤ 0) := by
  have hZ : 0 ≤ n.posRegretSum := by
    apply List.sum_nonneg
    intro x hx
    rcases List.mem_map.1 hx with ⟨a, _, rfl⟩
    exact le_max_right _ _
  have hcs : (n.updateStrategy).currentStrategy = (List.range n.actionNum).map
      (fun a => if 0 < n.posRegretSum then max (n.regretSum.getD a 0) 0 / n.posRegretSum
                else 1 / (n.actionNum : ℚ)) := by
    simp [Node.updateStrategy, h]
  refine ⟨hZ, ?_, ?_, ?_⟩
  · intro hpos a ha
    rw [hcs, getD_map_range]
    simp [ha, hpos]
  · intro hzero a ha
    rw [hcs, getD_map_range]
    simp [ha, hzero]
  · constructor
    · intro hzero a ha
      by_contra hgt
      push_neg at hgt
      have hmem : max (n.regretSum.getD a 0) 0 ∈
          (List.range n.actionNum).map (fun b => max (n.regretSum.getD b 0) 0) :=
        List.mem_map.2 ⟨a, List.mem_range.2 ha, rfl⟩
      have hle : max (n.regretSum.getD a 0) 0 ≤ n.posRegretSum := by
        apply List.single_le_sum _ _ hmem
        intro x hx
        rcases List.mem_map.1 hx with ⟨b, _, rfl⟩
        exact le_max_right _ _
      have hlt : (0 : ℚ) < n.posRegretSum :=
        lt_of_lt_of_le (lt_max_iff.mpr (Or.inl hgt)) hle
      rw [hzero] at hlt
      exact lt_irrefl 0 hlt
    · intro hall
      apply List.sum_eq_zero
      intro x hx
      rcases List.mem_map.1 hx with ⟨a, ha, rfl⟩
      exact max_eq_right (hall a (List.mem_range.1 ha))

/-- C3 witness: on the concrete table with regrets `[1, 0]` and two
actions, the recomputed strategy puts probability `1` on action `0`. -/
theorem refreshStrategy_regret_matching_witness :
    (((mkNode 2).regretSumSet 0 1).updateStrategy).currentStrategy.getD 0 0 = 1 := by
  have h := (refreshStrategy_regret_matching ((mkNode 2).regretSumSet 0 1) rfl).2.1
    (by norm_num [Node.posRegretSum, mkNode, Node.regretSumSet, List.range_succ]) 0
    (by norm_num [mkNode, Node.regretSumSet])
  rw [h]
  norm_num [Node.posRegretSum, mkNode, Node.regretSumSet, List.range_succ]

/-! Claim C9 — the dirty flag after `refreshStrategy`. -/

/-- C9 counterexample: after setting a regret (which raises the flag)
and calling `refreshStrategy`, the `strategyDirty` flag is still set —
`Node::updateStrategy` never clears `strategyNeedsUpdate`, contradicting
the claim that the flag is false after the call. -/
theorem updateStrategy_keeps_dirty_flag_cex :
    (((mkNode 2).regretSumSet 0 1).updateStrategy).strategyNeedsUpdate = true := rfl

/-- C9 amended: `refreshStrategy` leaves the `strategyDirty` flag
exactly as it found it (the source never clears it); `addRegret`
(the `regretSum` setter) raises it; and a second `refreshStrategy` with
no intervening `addRegret` recomputes from the same regrets and
produces the identical table (the recomputation is idempotent, not
skipped). -/
theorem updateStrategy_flag_and_idempotent (n : Node) (a : Nat) (v : ℚ) :
    (n.updateStrategy).strategyNeedsUpdate = n.strategyNeedsUpdate
  ∧ (n.regretSumSet a v).strategyNeedsUpdate = true
  ∧ n.updateStrategy.updateStrategy = n.updateStrategy := by
  refine ⟨?_, rfl, ?_⟩
  · by_cases h : n.strategyNeedsUpdate <;> simp [Node.updateStrategy, h]
  · cases n with
    | mk actionNum regretSum currentStrategy strategySum averageStrategy alreadyCalculated sd =>
      cases sd <;> simp [Node.updateStrategy, Node.posRegretSum]

/-! Claim C7 — persistence round-trip. -/

/-- C7: serializing a node map (`Node::save` per node) and
deserializing it (`Node::load`) yields, at every info-set key, a table
with the same action count (inferred from the archived vector's
length) and entrywise-equal `averageStrategy`.  The hypothesis is the
structural invariant of the C++ arrays: the stored average array has
exactly `actionNum` entries. -/
theorem save_load_roundtrip (m : NodeMap)
    (hWF : ∀ k n, findA m k = some n → n.averageStrategy.length = n.actionNum) (k : Key) :
    (findA (loadNodeMap (saveNodeMap m)) k).map (fun n => (n.actionNum, n.averageStrategy))
      = (findA m k).map (fun n => (n.actionNum, n.averageStrategy)) := by
  have h1 : findA (saveNodeMap m) k = (findA m k).map Node.save :=
    findA_mapVal Node.save m k
  have h2 : findA (loadNodeMap (saveNodeMap m)) k = (findA (saveNodeMap m) k).map Node.load :=
    findA_mapVal Node.load (saveNodeMap m) k
  rw [h2, h1, Option.map_map, Option.map_map]
  cases hfind : findA m k with
  | none => rfl
  | some n =>
    have hlen := hWF k n hfind
    have htake : n.averageStrategy.take n.actionNum = n.averageStrategy := by
      rw [← hlen, List.take_length]
    simp [Function.comp, Node.load, Node.save, htake, hlen]

/-- C7 witness: round-trip of a concrete single-entry map. -/
theorem save_load_roundtrip_witness :
    (findA (loadNodeMap (saveNodeMap [([0], Node.load [1/2, 1/2])])) [0]).map
        (fun n => (n.actionNum, n.averageStrategy))
      = (findA [([0], Node.load [1/2, 1/2])] [0]).map
          (fun n => (n.actionNum, n.averageStrategy)) := by
  apply save_load_roundtrip
  intro k n h
  by_cases hk : (([0] : Key)) = k
  · simp [findA, hk] at h
    rw [← h]
    rfl
  · simp [findA, hk] at h

/-! Claim C10 — serialization writes the cached averages as stored. -/

/-- C10: `Node::save` archives the cached average-strategy array
exactly as stored, with no recomputation; `writeStrategyToBin` persists
up-to-date averages only because its diagnostic print loop calls
`averageStrategy()` (freshening any stale cache) on every node before
the archive is written; and archiving a node whose `averageDirty` flag
is set would persist stale values, witnessed by a fresh two-action
table whose stored cache `[0, 0]` differs from its recomputed average
`[1/2, 1/2]`. -/
theorem writeStrategy_persists_stored_averages :
    (∀ n : Node, n.averageStrategy.length = n.actionNum → Node.save n = n.averageStrategy)
  ∧ (∀ (m : NodeMap) (k : Key),
      findA (writeStrategyToBin m) k
        = (findA m k).map (fun n => Node.save n.calcAverageStrategy))
  ∧ ((mkNode 2).alreadyCalculated = false
      ∧ Node.save (mkNode 2) ≠ Node.save ((mkNode 2).calcAverageStrategy)) := by
  refine ⟨?_, ?_, rfl, ?_⟩
  · intro n hlen
    rw [Node.save, ← hlen, List.take_length]
  · intro m k
    have h1 : findA (saveNodeMap (touchAverages m)) k = (findA (touchAverages m) k).map Node.save :=
      findA_mapVal Node.save (touchAverages m) k
    have h2 : findA (touchAverages m) k = (findA m k).map Node.calcAverageStrategy :=
      findA_mapVal Node.calcAverageStrategy m k
    rw [writeStrategyToBin, h1, h2, Option.map_map]
    rfl
  · intro hcontra
    have h0 : Node.save (mkNode 2) = [0, 0] := by
      norm_num [Node.save, mkNode, List.replicate, List.take]
    have h1 : Node.save ((mkNode 2).calcAverageStrategy) = [1/2, 1/2] := by
      norm_num [Node.save, Node.calcAverageStrategy, mkNode, List.replicate, List.take,
        List.range_succ]
    rw [h0, h1] at hcontra
    norm_num at hcontra

/-- C10 witness: the no-recompute conjunct evaluated on a concrete
loaded table. -/
theorem writeStrategy_persists_stored_averages_witness :
    Node.save (Node.load [1, 0]) = (Node.load [1, 0]).averageStrategy :=
  writeStrategy_persists_stored_averages.1 (Node.load [1, 0]) rfl

/-! Claim C8 — fixed-strategy actors are fatal under sampling. -/

/-- C8: running external- or outcome-sampling CFR on a (non-terminal)
state whose acting player is a fixed-strategy player fails with
`IncompatibleMode` at the point of detection — the recursion returns
the error immediately and never proceeds past the node. -/
theorem sampling_rejects_fixed_actor {S : Type} (C : TrainerCtx S) (fuel : Nat) (g : S)
    (playerIndex iteration : Nat) (pi po s : ℚ) (st : TState)
    (hGO : C.G.isGameOver g = false)
    (hFixed : C.update (C.G.currentPlayer g) = false) :
    externalSamplingCFR C (fuel + 1) g playerIndex st = .error .incompatibleMode
  ∧ outcomeSamplingCFR C (fuel + 1) g playerIndex iteration pi po s st
      = .error .incompatibleMode := by
  constructor
  · simp [externalSamplingCFR, hGO, hFixed]
  · simp [outcomeSamplingCFR, hGO, hFixed]

/-- C8 witness: the tiny game's root under an all-fixed configuration. -/
theorem sampling_rejects_fixed_actor_witness :
    externalSamplingCFR miniCtxFixed 1 0 0 st0 = .error .incompatibleMode
  ∧ outcomeSamplingCFR miniCtxFixed 1 0 0 0 1 1 1 st0 = .error .incompatibleMode :=
  sampling_rejects_fixed_actor miniCtxFixed 0 0 0 0 1 1 1 st0 rfl rfl

/-! Claim C5 — the per-iteration mode dispatch of `Trainer::train`. -/

/-- C5: in each training iteration, for a learning player: `standard`
resets with `skipChance = false`, runs `CFR(g, p, 1, 1)` and then
batch-refreshes (`updateStrategy`) every table of the node map;
`chance`, `external` and `outcome` reset with `skipChance = true`
(the default argument of `Game::resetGame`); `chance` batch-refreshes
afterwards while `external` and `outcome` return the solver's node map
with no batch refresh.  The batch refresh really touches every table
(`findA` after `batchUpdateStrategy` is the per-node refresh), and on
the Kuhn game `resetGame(true)` leaves a concretely dealt state —
player 0 to act, not a chance node — while `resetGame(false)` hands
the turn to the chance player. -/
theorem train_mode_dispatch {S : Type} (C : TrainCtx S) (fuel : Nat)
    (iteration playerIndex : Nat) (g : S) (st : TState) :
    (∀ u st2, CFR C.toTrainerCtx fuel (C.reset false g st).1 playerIndex 1 1
          (C.reset false g st).2 = .ok (u, st2) →
        trainStep C fuel "standard" iteration playerIndex g st
          = .ok (u, (C.reset false g st).1, { st2 with nodeMap := batchUpdateStrategy st2.nodeMap }))
  ∧ (∀ u st2, chanceSamplingCFR C.toTrainerCtx fuel (C.reset true g st).1 playerIndex 1 1
          (C.reset true g st).2 = .ok (u, st2) →
        trainStep C fuel "chance" iteration playerIndex g st
          = .ok (u, (C.reset true g st).1, { st2 with nodeMap := batchUpdateStrategy st2.nodeMap }))
  ∧ (∀ u st2, externalSamplingCFR C.toTrainerCtx fuel (C.reset true g st).1 playerIndex
          (C.reset true g st).2 = .ok (u, st2) →
        trainStep C fuel "external" iteration playerIndex g st
          = .ok (u, (C.reset true g st).1, st2))
  ∧ (∀ ut st2, outcomeSamplingCFR C.toTrainerCtx fuel (C.reset true g st).1 playerIndex iteration
          1 1 1 (C.reset true g st).2 = .ok (ut, st2) →
        trainStep C fuel "outcome" iteration playerIndex g st
          = .ok (ut.1, (C.reset true g st).1, st2))
  ∧ (∀ (m : NodeMap) (k : Key),
      findA (batchUpdateStrategy m) k = (findA m k).map Node.updateStrategy)
  ∧ (∀ (kg : KuhnGame) (rng : List Nat),
      ((kg.resetGame true rng).1.isChanceNode = false
        ∧ (kg.resetGame true rng).1.currentPlayerIndex = 0)
      ∧ (kg.resetGame false rng).1.isChanceNode = true) := by
  refine ⟨?_, ?_, ?_, ?_, ?_, ?_⟩
  · intro u st2 h
    simp [trainStep, h]
  · intro u st2 h
    simp [trainStep, h]
  · intro u st2 h
    simp [trainStep, h]
  · intro ut st2 h
    simp [trainStep, h]
  · intro m k
    exact findA_mapVal Node.updateStrategy m k
  · intro kg rng
    exact ⟨⟨rfl, rfl⟩, rfl⟩

/-- C5 witness: the `external` conjunct evaluated at the tiny game's
terminal state `1` with one unit of fuel. -/
theorem train_mode_dispatch_witness :
    trainStep miniTrainCtx 1 "external" 0 0 1 st0 = .ok (miniG.payoff 1 0, 1, st0.touch) :=
  (train_mode_dispatch miniTrainCtx 1 0 0 1 st0).2.2.1 (miniG.payoff 1 0) st0.touch rfl

/-! Helper lemmas for the per-node solver characterizations. -/

theorem getD_range (n i d : Nat) : (List.range n).getD i d = if i < n then i else d := by
  by_cases h : i < n
  · rw [List.getD_eq_getElem?_getD, List.getElem?_range h]
    simp [h]
  · rw [List.getD_eq_default _ _ (by simpa using Nat.le_of_not_lt h)]
    simp [h]

theorem applyRegretUpdates_fields (po nU : ℚ) (us : List ℚ) :
    ∀ (actions : List Nat) (node : Node),
      (applyRegretUpdates po nU us node actions).actionNum = node.actionNum
    ∧ (applyRegretUpdates po nU us node actions).strategySum = node.strategySum
    ∧ (applyRegretUpdates po nU us node actions).currentStrategy = node.currentStrategy
    ∧ (applyRegretUpdates po nU us node actions).regretSum.length = node.regretSum.length
    ∧ (applyRegretUpdates po nU us node actions).averageStrategy = node.averageStrategy := by
  intro actions
  induction actions with
  | nil => intro node; exact ⟨rfl, rfl, rfl, rfl, rfl⟩
  | cons b rest ih =>
    intro node
    have h := ih (node.regretSumSet b (node.regretSumGet b + po * (us.getD b 0 - nU)))
    simpa [applyRegretUpdates, Node.regretSumSet, List.length_set] using h

theorem applyRegretUpdates_getD (po nU : ℚ) (us : List ℚ) :
    ∀ (actions : List Nat) (node : Node), actions.Nodup →
      (∀ x ∈ actions, x < node.regretSum.length) →
      ∀ a, (applyRegretUpdates po nU us node actions).regretSumGet a
        = if a ∈ actions then node.regretSumGet a + po * (us.getD a 0 - nU)
          else node.regretSumGet a := by
  intro actions
  induction actions with
  | nil => intro node _ _ a; simp [applyRegretUpdates]
  | cons b rest ih =>
    intro node hnd hbound a
    have hnd' := List.nodup_cons.1 hnd
    have hb : b < node.regretSum.length := hbound b (List.mem_cons_self b rest)
    have hbound' : ∀ x ∈ rest,
        x < (node.regretSumSet b (node.regretSumGet b + po * (us.getD b 0 - nU))).regretSum.length := by
      intro x hx
      simpa [Node.regretSumSet, List.length_set] using hbound x (List.mem_cons_of_mem _ hx)
    rw [applyRegretUpdates, ih _ hnd'.2 hbound' a]
    by_cases hmem : a ∈ rest
    · have hab : a ≠ b := fun he => hnd'.1 (he ▸ hmem)
      have hset : (node.regretSumSet b (node.regretSumGet b + po * (us.getD b 0 - nU))).regretSumGet a
          = node.regretSumGet a := by
        simp only [Node.regretSumSet, Node.regretSumGet]
        exact getD_set_other _ _ _ _ _ (Ne.symm hab)
      rw [if_pos hmem, if_pos (List.mem_cons_of_mem b hmem), hset]
    · by_cases hab : a = b
      · subst hab
        have hset : (node.regretSumSet a (node.regretSumGet a + po * (us.getD a 0 - nU))).regretSumGet a
            = node.regretSumGet a + po * (us.getD a 0 - nU) := by
          simp only [Node.regretSumSet, Node.regretSumGet]
          exact getD_set_self _ _ _ _ hb
        rw [if_neg hmem, if_pos (List.mem_cons_self a rest), hset]
      · have hset : (node.regretSumSet b (node.regretSumGet b + po * (us.getD b 0 - nU))).regretSumGet a
            = node.regretSumGet a := by
          simp only [Node.regretSumSet, Node.regretSumGet]
          exact getD_set_other _ _ _ _ _ (Ne.symm hab)
        have hnotin : a ∉ b :: rest := by
          simp [List.mem_cons, hab, hmem]
        rw [if_neg hmem, if_neg hnotin, hset]

theorem strategySumAdd_getD (n : Node) (strat : List ℚ) (w : ℚ) (a : Nat)
    (ha : a < n.actionNum) :
    (n.strategySumAdd strat w).strategySum.getD a 0
      = n.strategySum.getD a 0 + w * strat.getD a 0 := by
  simp [Node.strategySumAdd, getD_map_range, ha]

theorem cfrChildren_spec {S : Type} (G : GameIntf S)
    (recur : S → ℚ → ℚ → TState → Except CfrError (ℚ × TState))
    (g : S) (isLearner : Bool) (strategy : List ℚ) (pi po : ℚ) :
    ∀ (actions : List Nat) (st stF : TState) (us : List ℚ),
      cfrChildren G recur g isLearner strategy pi po actions st = .ok (us, stF) →
      us.length = actions.length ∧
      ∃ f : Nat → TState, f 0 = st ∧ f actions.length = stF ∧
        ∀ i, i < actions.length →
          (if isLearner then
             recur (G.takeAction g (actions.getD i 0))
               (pi * strategy.getD (actions.getD i 0) 0) po (f i)
           else
             recur (G.takeAction g (actions.getD i 0)) pi
               (po * strategy.getD (actions.getD i 0) 0) (f i))
          = .ok (us.getD i 0, f (i + 1)) := by
  intro actions
  induction actions with
  | nil =>
    intro st stF us h
    simp only [cfrChildren, Except.ok.injEq, Prod.mk.injEq] at h
    obtain ⟨h1, h2⟩ := h
    subst h1
    subst h2
    exact ⟨rfl, fun _ => st, rfl, rfl, fun i hi => absurd hi (by simp)⟩
  | cons b rest ih =>
    intro st stF us h
    rw [cfrChildren] at h
    cases hstep : (if isLearner then recur (G.takeAction g b) (pi * strategy.getD b 0) po st
                   else recur (G.takeAction g b) pi (po * strategy.getD b 0) st) with
    | error e =>
      rw [hstep] at h
      exact absurd h (by simp)
    | ok p =>
      obtain ⟨u1, st2⟩ := p
      rw [hstep] at h
      dsimp only at h
      cases hrest : cfrChildren G recur g isLearner strategy pi po rest st2 with
      | error e =>
        rw [hrest] at h
        exact absurd h (by simp)
      | ok q =>
        obtain ⟨us', st3⟩ := q
        rw [hrest] at h
        dsimp only at h
        simp only [Except.ok.injEq, Prod.mk.injEq] at h
        obtain ⟨hus, hstF⟩ := h
        subst hus
        subst hstF
        obtain ⟨hlen, f', hf0, hfEnd, hcalls⟩ := ih st2 st3 us' hrest
        refine ⟨by simp [hlen], fun n => match n with | 0 => st | Nat.succ m => f' m,
          rfl, by simpa using hfEnd, ?_⟩
        intro i hi
        match i with
        | 0 => simpa [hf0] using hstep
        | Nat.succ m =>
          have hm : m < rest.length := by simpa using hi
          simpa using hcalls m hm

/-! Claim C1 — the learning-node step of vanilla CFR. -/

/-- C1: at a non-terminal, non-chance node whose actor is a learning
player, vanilla CFR recurses on every action `a` with child reach
`(π_i·σ[a], π_{-i})` when the actor is the learner and
`(π_i, π_{-i}·σ[a])` otherwise, where `σ` is the current strategy of
the table fetched (or created) for the node's info-set key and the
trainer states are threaded left to right through `f`; the returned
node value is `u = Σ_a σ[a]·us[a]`; and exactly when the actor equals
the learner, the table is written back with every cumulative regret
incremented by `π_{-i}·(us[a] − u)` and the strategy sum then
accumulated with strategy `σ` and weight `π_i` — for any other learning
actor the state after the children is returned unchanged. -/
theorem vanillaCFR_learning_node_spec {S : Type} (C : TrainerCtx S) (fuel : Nat) (g : S)
    (playerIndex : Nat) (pi po : ℚ) (st : TState) (u : ℚ) (stOut : TState)
    (hGO : C.G.isGameOver g = false)
    (hCh : C.G.isChanceNode g = false)
    (hUp : C.update (C.G.currentPlayer g) = true)
    (hOk : CFR C (fuel + 1) g playerIndex pi po st = .ok (u, stOut)) :
    ∃ us : List ℚ, ∃ f : Nat → TState,
      us.length = C.G.actionNum g
    ∧ f 0 = { st.touch with
              nodeMap := (fetchOrCreate st.touch.nodeMap (C.G.infoSetStr g) (C.G.actionNum g)).2 }
    ∧ (∀ a, a < C.G.actionNum g →
        CFR C fuel (C.G.takeAction g a) playerIndex
          (if C.G.currentPlayer g = playerIndex
           then pi * (fetchOrCreate st.touch.nodeMap (C.G.infoSetStr g)
                        (C.G.actionNum g)).1.currentStrategy.getD a 0
           else pi)
          (if C.G.currentPlayer g = playerIndex
           then po
           else po * (fetchOrCreate st.touch.nodeMap (C.G.infoSetStr g)
                        (C.G.actionNum g)).1.currentStrategy.getD a 0)
          (f a) = .ok (us.getD a 0, f (a + 1)))
    ∧ u = ((List.range (C.G.actionNum g)).map
            (fun a => (fetchOrCreate st.touch.nodeMap (C.G.infoSetStr g)
                         (C.G.actionNum g)).1.currentStrategy.getD a 0 * us.getD a 0)).sum
    ∧ (C.G.currentPlayer g ≠ playerIndex → stOut = f (C.G.actionNum g))
    ∧ (C.G.currentPlayer g = playerIndex →
        ∀ nd0 : Node,
          nd0 = (findA (f (C.G.actionNum g)).nodeMap (C.G.infoSetStr g)).getD
                  (fetchOrCreate st.touch.nodeMap (C.G.infoSetStr g) (C.G.actionNum g)).1 →
          nd0.regretSum.length = C.G.actionNum g →
          nd0.actionNum = C.G.actionNum g →
          ∃ nd : Node,
            stOut = { f (C.G.actionNum g) with
                      nodeMap := setA (f (C.G.actionNum g)).nodeMap (C.G.infoSetStr g) nd }
          ∧ (∀ a, a < C.G.actionNum g →
              nd.regretSumGet a = nd0.regretSumGet a + po * (us.getD a 0 - u))
          ∧ (∀ a, a < C.G.actionNum g →
              nd.strategySum.getD a 0 = nd0.strategySum.getD a 0
                + pi * (fetchOrCreate st.touch.nodeMap (C.G.infoSetStr g)
                          (C.G.actionNum g)).1.currentStrategy.getD a 0)) := by
  simp only [CFR, hGO, hCh, hUp, Bool.not_true, Bool.false_eq_true, if_false] at hOk
  cases hcc : cfrChildren C.G (fun g2 pi2 po2 st2 => CFR C fuel g2 playerIndex pi2 po2 st2) g
      (C.G.currentPlayer g == playerIndex)
      (fetchOrCreate st.touch.nodeMap (C.G.infoSetStr g) (C.G.actionNum g)).1.currentStrategy
      pi po (List.range (C.G.actionNum g))
      { st.touch with
        nodeMap := (fetchOrCreate st.touch.nodeMap (C.G.infoSetStr g) (C.G.actionNum g)).2 } with
  | error e =>
    rw [hcc] at hOk
    exact absurd hOk (by simp)
  | ok p =>
    obtain ⟨us, st2⟩ := p
    rw [hcc] at hOk
    dsimp only at hOk
    obtain ⟨hlen, f, hf0, hfA, hcalls⟩ :=
      cfrChildren_spec C.G (fun g2 pi2 po2 st2 => CFR C fuel g2 playerIndex pi2 po2 st2) g
        (C.G.currentPlayer g == playerIndex)
        (fetchOrCreate st.touch.nodeMap (C.G.infoSetStr g) (C.G.actionNum g)).1.currentStrategy
        pi po (List.range (C.G.actionNum g)) _ _ _ hcc
    have hfA' : f (C.G.actionNum g) = st2 := by simpa using hfA
    have hchild : ∀ a, a < C.G.actionNum g →
        CFR C fuel (C.G.takeAction g a) playerIndex
          (if C.G.currentPlayer g = playerIndex
           then pi * (fetchOrCreate st.touch.nodeMap (C.G.infoSetStr g)
                        (C.G.actionNum g)).1.currentStrategy.getD a 0
           else pi)
          (if C.G.currentPlayer g = playerIndex
           then po
           else po * (fetchOrCreate st.touch.nodeMap (C.G.infoSetStr g)
                        (C.G.actionNum g)).1.currentStrategy.getD a 0)
          (f a) = .ok (us.getD a 0, f (a + 1)) := by
      intro a ha
      have hc := hcalls a (by simpa using ha)
      rw [getD_range] at hc
      by_cases hP : C.G.currentPlayer g = playerIndex
      · have hb : (C.G.currentPlayer g == playerIndex) = true := beq_iff_eq.mpr hP
        rw [hb] at hc
        simp only [ha, if_true, if_pos hP] at hc ⊢
        exact hc
      · have hb : (C.G.currentPlayer g == playerIndex) = false := by
          simp [hP]
        rw [hb] at hc
        simp only [ha, if_true, if_false, if_neg hP, Bool.false_eq_true] at hc ⊢
        exact hc
    by_cases hP : C.G.currentPlayer g = playerIndex
    · have hb : (C.G.currentPlayer g == playerIndex) = true := beq_iff_eq.mpr hP
      rw [hb] at hOk
      simp only [if_true, Except.ok.injEq, Prod.mk.injEq] at hOk
      obtain ⟨hu, hst⟩ := hOk
      refine ⟨us, f, by simpa using hlen, hf0, hchild, by rw [← hu]; rfl,
        fun hP' => absurd hP hP', ?_⟩
      intro _ nd0 hnd0 hlen0 hact0
      have hnd0' : nd0 = (findA st2.nodeMap (C.G.infoSetStr g)).getD
          (fetchOrCreate st.touch.nodeMap (C.G.infoSetStr g) (C.G.actionNum g)).1 := by
        rw [hnd0, hfA']
      refine ⟨(applyRegretUpdates po
          (dotRange (fetchOrCreate st.touch.nodeMap (C.G.infoSetStr g)
            (C.G.actionNum g)).1.currentStrategy us (C.G.actionNum g)) us nd0
          (List.range (C.G.actionNum g))).strategySumAdd
          (fetchOrCreate st.touch.nodeMap (C.G.infoSetStr g)
            (C.G.actionNum g)).1.currentStrategy pi, ?_, ?_, ?_⟩
      · rw [← hst, hfA', hnd0']
      · intro a ha
        have hreg : ∀ x : Node, (x.strategySumAdd
            (fetchOrCreate st.touch.nodeMap (C.G.infoSetStr g)
              (C.G.actionNum g)).1.currentStrategy pi).regretSumGet a = x.regretSumGet a := by
          intro x
          simp [Node.strategySumAdd, Node.regretSumGet]
        rw [hreg]
        rw [applyRegretUpdates_getD po _ us (List.range (C.G.actionNum g)) nd0
          (List.nodup_range _) (by intro x hx; rw [hlen0]; exact List.mem_range.1 hx) a]
        rw [if_pos (List.mem_range.2 ha), ← hu]
      · intro a ha
        have hact1 : (applyRegretUpdates po
            (dotRange (fetchOrCreate st.touch.nodeMap (C.G.infoSetStr g)
              (C.G.actionNum g)).1.currentStrategy us (C.G.actionNum g)) us nd0
            (List.range (C.G.actionNum g))).actionNum = C.G.actionNum g := by
          rw [(applyRegretUpdates_fields _ _ _ _ _).1, hact0]
        rw [strategySumAdd_getD _ _ _ _ (by rw [hact1]; exact ha),
          (applyRegretUpdates_fields _ _ _ _ _).2.1]
    · have hb : (C.G.currentPlayer g == playerIndex) = false := by simp [hP]
      rw [hb] at hOk
      simp only [Bool.false_eq_true, if_false, Except.ok.injEq, Prod.mk.injEq] at hOk
      obtain ⟨hu, hst⟩ := hOk
      exact ⟨us, f, by simpa using hlen, hf0, hchild, by rw [← hu]; rfl,
        fun _ => by rw [← hst, hfA'], fun hP' => absurd hP' hP⟩

theorem cfr_mini_eval : CFR miniCtx 2 0 0 1 1 st0 = .ok (3/2, cfrWitnessState) := by
  show CFR miniCtx (1 + 1) 0 0 1 1 st0 = .ok (3/2, cfrWitnessState)
  norm_num [CFR, miniCtx, miniG, st0, TState.touch, fetchOrCreate, findA, setA, mkNode,
    cfrChildren, dotRange, applyRegretUpdates, Node.regretSumSet, Node.regretSumGet,
    Node.strategySumAdd, cfrWitnessState, cfrWitnessNode, List.range_succ,
    List.replicate_succ, List.set_cons_zero, List.set_cons_succ]

/-- C1 witness: the characterization at the tiny game's root under one
vanilla iteration with unit reach. -/
theorem vanillaCFR_learning_node_spec_witness :
    ∃ us : List ℚ, ∃ f : Nat → TState,
      us.length = 2
    ∧ f 0 = { st0.touch with nodeMap := [([0], mkNode 2)] }
    ∧ (∀ a, a < 2 →
        CFR miniCtx 1 (miniG.takeAction 0 a) 0
          (if (0 : Nat) = 0 then 1 * (mkNode 2).currentStrategy.getD a 0 else 1)
          (if (0 : Nat) = 0 then 1 else 1 * (mkNode 2).currentStrategy.getD a 0)
          (f a) = .ok (us.getD a 0, f (a + 1)))
    ∧ (3/2 : ℚ)
        = ((List.range 2).map (fun a => (mkNode 2).currentStrategy.getD a 0 * us.getD a 0)).sum
    ∧ ((0 : Nat) ≠ 0 → cfrWitnessState = f 2)
    ∧ ((0 : Nat) = 0 → ∀ nd0 : Node, nd0 = (findA (f 2).nodeMap [0]).getD (mkNode 2) →
        nd0.regretSum.length = 2 → nd0.actionNum = 2 →
        ∃ nd : Node,
          cfrWitnessState = { f 2 with nodeMap := setA (f 2).nodeMap [0] nd }
        ∧ (∀ a, a < 2 → nd.regretSumGet a = nd0.regretSumGet a + 1 * (us.getD a 0 - 3/2))
        ∧ (∀ a, a < 2 → nd.strategySum.getD a 0 = nd0.strategySum.getD a 0
              + 1 * (mkNode 2).currentStrategy.getD a 0)) :=
  vanillaCFR_learning_node_spec miniCtx 1 0 0 1 1 st0 (3/2) cfrWitnessState
    rfl rfl rfl cfr_mini_eval

/-! Claim C2 — the outcome-sampling step. -/

theorem touch_nodeMap (st : TState) : st.touch.nodeMap = st.nodeMap := rfl

theorem touch_rng (st : TState) : st.touch.rng = st.rng := rfl

theorem applyRegretUpdatesOS_fields (w pTail sChosen : ℚ) (cA : Nat) :
    ∀ (actions : List Nat) (node : Node),
      (applyRegretUpdatesOS w pTail sChosen cA node actions).actionNum = node.actionNum
    ∧ (applyRegretUpdatesOS w pTail sChosen cA node actions).strategySum = node.strategySum
    ∧ (applyRegretUpdatesOS w pTail sChosen cA node actions).regretSum.length
        = node.regretSum.length
    ∧ (applyRegretUpdatesOS w pTail sChosen cA node actions).currentStrategy
        = node.currentStrategy
    ∧ (applyRegretUpdatesOS w pTail sChosen cA node actions).averageStrategy
        = node.averageStrategy := by
  intro actions
  induction actions with
  | nil => intro node; exact ⟨rfl, rfl, rfl, rfl, rfl⟩
  | cons b rest ih =>
    intro node
    have h := ih (node.regretSumSet b (node.regretSumGet b +
      (if b = cA then w * (1 - sChosen) * pTail else -w * pTail * sChosen)))
    simpa [applyRegretUpdatesOS, Node.regretSumSet, List.length_set] using h

theorem applyRegretUpdatesOS_getD (w pTail sChosen : ℚ) (cA : Nat) :
    ∀ (actions : List Nat) (node : Node), actions.Nodup →
      (∀ x ∈ actions, x < node.regretSum.length) →
      ∀ a, (applyRegretUpdatesOS w pTail sChosen cA node actions).regretSumGet a
        = if a ∈ actions then node.regretSumGet a +
            (if a = cA then w * (1 - sChosen) * pTail else -w * pTail * sChosen)
          else node.regretSumGet a := by
  intro actions
  induction actions with
  | nil => intro node _ _ a; simp [applyRegretUpdatesOS]
  | cons b rest ih =>
    intro node hnd hbound a
    have hnd' := List.nodup_cons.1 hnd
    have hb : b < node.regretSum.length := hbound b (List.mem_cons_self b rest)
    have hbound' : ∀ x ∈ rest, x < (node.regretSumSet b (node.regretSumGet b +
        (if b = cA then w * (1 - sChosen) * pTail
         else -w * pTail * sChosen))).regretSum.length := by
      intro x hx
      simpa [Node.regretSumSet, List.length_set] using hbound x (List.mem_cons_of_mem _ hx)
    rw [applyRegretUpdatesOS, ih _ hnd'.2 hbound' a]
    by_cases hmem : a ∈ rest
    · have hab : a ≠ b := fun he => hnd'.1 (he ▸ hmem)
      have hset : (node.regretSumSet b (node.regretSumGet b +
          (if b = cA then w * (1 - sChosen) * pTail
           else -w * pTail * sChosen))).regretSumGet a = node.regretSumGet a := by
        simp only [Node.regretSumSet, Node.regretSumGet]
        exact getD_set_other _ _ _ _ _ (Ne.symm hab)
      rw [if_pos hmem, if_pos (List.mem_cons_of_mem b hmem), hset]
    · by_cases hab : a = b
      · subst hab
        have hset : (node.regretSumSet a (node.regretSumGet a +
            (if a = cA then w * (1 - sChosen) * pTail
             else -w * pTail * sChosen))).regretSumGet a
            = node.regretSumGet a +
              (if a = cA then w * (1 - sChosen) * pTail else -w * pTail * sChosen) := by
          simp only [Node.regretSumSet, Node.regretSumGet]
          exact getD_set_self _ _ _ _ hb
        rw [if_neg hmem, if_pos (List.mem_cons_self a rest), hset]
      · have hset : (node.regretSumSet b (node.regretSumGet b +
            (if b = cA then w * (1 - sChosen) * pTail
             else -w * pTail * sChosen))).regretSumGet a = node.regretSumGet a := by
          simp only [Node.regretSumSet, Node.regretSumGet]
          exact getD_set_other _ _ _ _ _ (Ne.symm hab)
        have hnotin : a ∉ b :: rest := by simp [List.mem_cons, hab, hmem]
        rw [if_neg hmem, if_neg hnotin, hset]

/-- C2: outcome-sampling CFR — at a terminal state the pair
`(payoff(learner)/s, 1)` is returned; at a learning node the table is
refreshed on entry, the sampled action `a' = ` head of the RNG oracle
is drawn from `q` where (with `ε = 0.6 = 3/5` exactly) the learner's
weights are `q[a] = ε/A + (1−ε)·σ[a]` and any other actor's are
`q[a] = σ[a]`; the recursion gets reach
`(π_i·[σ[a'] if learner], π_{-i}·[σ[a'] if not], s·q[a'])`; when the
actor is the learner every regret is incremented, with `W = util·π_{-i}`,
by `W·(1−σ[a'])·tail` at `a'` and `−W·tail·σ[a']` elsewhere; when the
actor is another learning player `strategySum` is accumulated with
strategy `σ` and weight `π_{-i}/s`; and in both cases the node returns
`(util, tail·σ[a'])`, with `σ[a']` the actor's strategy probability
(not `q[a']`). -/
theorem outcomeSampling_step_spec {S : Type} (C : TrainerCtx S) (fuel : Nat) (g : S)
    (playerIndex iteration : Nat) (pi po s : ℚ) (st : TState) :
    (C.G.isGameOver g = true →
      outcomeSamplingCFR C (fuel + 1) g playerIndex iteration pi po s st
        = .ok ((C.G.payoff g playerIndex / s, 1), st.touch))
  ∧ (C.G.isGameOver g = false → C.update (C.G.currentPlayer g) = true →
      ∀ node1 : Node,
        node1 = (fetchOrCreate st.touch.nodeMap (C.G.infoSetStr g)
                  (C.G.actionNum g)).1.updateStrategy →
      ∀ q : List ℚ,
        q = osProbability (C.G.currentPlayer g == playerIndex) node1.currentStrategy
              (C.G.actionNum g) →
      ∀ aC : Nat, aC = st.rng.headD 0 →
        osEpsilon = 3 / 5
      ∧ (∀ a, a < C.G.actionNum g → q.getD a 0 =
          if C.G.currentPlayer g = playerIndex
          then osEpsilon / (C.G.actionNum g : ℚ)
               + (1 - osEpsilon) * node1.currentStrategy.getD a 0
          else node1.currentStrategy.getD a 0)
      ∧ (∀ util pTail : ℚ, ∀ stR : TState,
          outcomeSamplingCFR C fuel (C.G.takeAction g aC) playerIndex iteration
            (pi * (if C.G.currentPlayer g = playerIndex
                   then node1.currentStrategy.getD aC 0 else 1))
            (po * (if C.G.currentPlayer g = playerIndex
                   then 1 else node1.currentStrategy.getD aC 0))
            (s * q.getD aC 0)
            { st.touch with
              nodeMap := setA (fetchOrCreate st.touch.nodeMap (C.G.infoSetStr g)
                                (C.G.actionNum g)).2 (C.G.infoSetStr g) node1
              rng := st.touch.rng.tail }
            = .ok ((util, pTail), stR) →
          ∀ nd0 : Node, nd0 = (findA stR.nodeMap (C.G.infoSetStr g)).getD node1 →
            (C.G.currentPlayer g = playerIndex →
              nd0.regretSum.length = C.G.actionNum g →
              ∃ nd : Node,
                outcomeSamplingCFR C (fuel + 1) g playerIndex iteration pi po s st
                  = .ok ((util, pTail * node1.currentStrategy.getD aC 0),
                         { stR with nodeMap := setA stR.nodeMap (C.G.infoSetStr g) nd })
              ∧ (∀ a, a < C.G.actionNum g →
                  nd.regretSumGet a = nd0.regretSumGet a +
                    (if a = aC
                     then util * po * (1 - node1.currentStrategy.getD aC 0) * pTail
                     else -(util * po) * pTail * node1.currentStrategy.getD aC 0)))
          ∧ (C.G.currentPlayer g ≠ playerIndex →
              nd0.actionNum = C.G.actionNum g →
              ∃ nd : Node,
                outcomeSamplingCFR C (fuel + 1) g playerIndex iteration pi po s st
                  = .ok ((util, pTail * node1.currentStrategy.getD aC 0),
                         { stR with nodeMap := setA stR.nodeMap (C.G.infoSetStr g) nd })
              ∧ (∀ a, a < C.G.actionNum g →
                  nd.strategySum.getD a 0 = nd0.strategySum.getD a 0
                    + (po / s) * node1.currentStrategy.getD a 0)))) := by
  constructor
  · intro hGO
    simp [outcomeSamplingCFR, hGO]
  · intro hGO hUp node1 hnode1 q hq aC haC
    subst hnode1
    subst hq
    subst haC
    refine ⟨rfl, ?_, ?_⟩
    · intro a ha
      by_cases hP : C.G.currentPlayer g = playerIndex
      · have hb : (C.G.currentPlayer g == playerIndex) = true := beq_iff_eq.mpr hP
        rw [hb]
        simp only [osProbability, if_true, getD_map_range, ha, if_pos hP]
      · have hb : (C.G.currentPlayer g == playerIndex) = false := by simp [hP]
        rw [hb]
        simp only [osProbability, Bool.false_eq_true, if_false, getD_map_range, ha, if_neg hP]
        simp
    · intro util pTail stR hrec nd0 hnd0
      constructor
      · intro hP hlen0
        have hb : (C.G.currentPlayer g == playerIndex) = true := beq_iff_eq.mpr hP
        rw [if_pos hP, if_pos hP] at hrec
        refine ⟨applyRegretUpdatesOS (util * po) pTail
            ((fetchOrCreate st.touch.nodeMap (C.G.infoSetStr g)
              (C.G.actionNum g)).1.updateStrategy.currentStrategy.getD (st.rng.headD 0) 0)
            (st.rng.headD 0) nd0 (List.range (C.G.actionNum g)), ?_, ?_⟩
        · simp only [outcomeSamplingCFR, drawIdx, touch_nodeMap, touch_rng, hGO, hUp, hb,
            Bool.not_true, Bool.false_eq_true, if_false, if_true] at hrec ⊢
          rw [hrec]
          dsimp only
          simp only [touch_nodeMap] at hnd0
          rw [hnd0]
        · intro a ha
          have hreg := applyRegretUpdatesOS_getD (util * po) pTail
            ((fetchOrCreate st.touch.nodeMap (C.G.infoSetStr g)
              (C.G.actionNum g)).1.updateStrategy.currentStrategy.getD (st.rng.headD 0) 0)
            (st.rng.headD 0) (List.range (C.G.actionNum g)) nd0 (List.nodup_range _)
            (by intro x hx; rw [hlen0]; exact List.mem_range.1 hx) a
          rw [hreg, if_pos (List.mem_range.2 ha)]
      · intro hP hact0
        have hb : (C.G.currentPlayer g == playerIndex) = false := by simp [hP]
        rw [if_neg hP, if_neg hP] at hrec
        refine ⟨nd0.strategySumAdd
            ((fetchOrCreate st.touch.nodeMap (C.G.infoSetStr g)
              (C.G.actionNum g)).1.updateStrategy.currentStrategy) (po / s), ?_, ?_⟩
        · simp only [outcomeSamplingCFR, drawIdx, touch_nodeMap, touch_rng, hGO, hUp, hb,
            Bool.not_true, Bool.false_eq_true, if_false, if_true] at hrec ⊢
          rw [hrec]
          dsimp only
          simp only [touch_nodeMap] at hnd0
          rw [hnd0]
        · intro a ha
          rw [strategySumAdd_getD _ _ _ _ (by rw [hact0]; exact ha)]

/-- C2 witness: one outcome-sampling visit to the tiny game's root with
the oracle drawing action `1`: the scaled terminal value is `4`, and the
sampled/unsampled regret increments are produced as claimed. -/
theorem outcomeSampling_step_spec_witness :
    ∃ nd : Node,
      outcomeSamplingCFR miniCtx 2 0 0 0 1 1 1 ⟨[], 0, [1]⟩
        = .ok ((4, 1 * (mkNode 2).currentStrategy.getD 1 0),
               ⟨setA [([0], mkNode 2)] [0] nd, 2, []⟩)
    ∧ (∀ a, a < 2 →
        nd.regretSumGet a = (mkNode 2).regretSumGet a +
          (if a = 1 then 4 * 1 * (1 - (mkNode 2).currentStrategy.getD 1 0) * 1
           else -(4 * 1) * 1 * (mkNode 2).currentStrategy.getD 1 0)) :=
  (((outcomeSampling_step_spec miniCtx 1 0 0 0 1 1 1 ⟨[], 0, [1]⟩).2 rfl rfl
      (mkNode 2) rfl
      [1/2, 1/2] (by norm_num [osProbability, mkNode, osEpsilon, List.range_succ,
        List.replicate_succ, miniG, miniCtx])
      1 rfl).2.2 4 1 ⟨[([0], mkNode 2)], 2, []⟩
      (by norm_num [outcomeSamplingCFR, miniCtx, miniG, mkNode, TState.touch, fetchOrCreate,
        findA, setA, List.replicate_succ])
      (mkNode 2) rfl).1 rfl rfl

/-! Claim C6 — non-negativity and monotonicity of `strategySum`.
Supporting preservation lemmas. -/

theorem mkNode_wf (actionNum : Nat) : NodeWF (mkNode actionNum) := by
  refine ⟨?_, ?_, ?_, ?_⟩ <;> simp [mkNode]

theorem mkNode_nneg (actionNum : Nat) : NodeNNeg (mkNode actionNum) := by
  constructor <;> intro a <;> simp only [mkNode, getD_replicate] <;> split
  · positivity
  · exact le_refl 0
  · exact le_refl 0
  · exact le_refl 0

theorem updateStrategy_preserves (n : Node) :
    (n.updateStrategy).actionNum = n.actionNum
  ∧ (n.updateStrategy).regretSum = n.regretSum
  ∧ (n.updateStrategy).strategySum = n.strategySum
  ∧ (n.updateStrategy).averageStrategy = n.averageStrategy := by
  by_cases h : n.strategyNeedsUpdate <;> simp [Node.updateStrategy, h]

theorem updateStrategy_wf (n : Node) (h : NodeWF n) : NodeWF n.updateStrategy := by
  obtain ⟨h1, h2, h3, h4⟩ := h
  by_cases hf : n.strategyNeedsUpdate
  · exact ⟨by simp [Node.updateStrategy, hf, h1],
      by simp [Node.updateStrategy, hf], by simp [Node.updateStrategy, hf, h3],
      by simp [Node.updateStrategy, hf, h4]⟩
  · simpa [Node.updateStrategy, hf] using ⟨h1, h2, h3, h4⟩

theorem updateStrategy_nneg (n : Node) (h : NodeNNeg n) : NodeNNeg n.updateStrategy := by
  obtain ⟨hc, hs⟩ := h
  by_cases hf : n.strategyNeedsUpdate
  · constructor
    · intro a
      simp only [Node.updateStrategy, hf, Bool.not_true, Bool.false_eq_true, if_false,
        getD_map_range]
      split
      · split
        · next hZ =>
          exact div_nonneg (le_max_right _ _) (le_of_lt hZ)
        · positivity
      · exact le_refl 0
    · intro a
      simpa [Node.updateStrategy, hf] using hs a
  · simpa [Node.updateStrategy, hf] using ⟨hc, hs⟩

theorem strategySumAdd_preserves (n : Node) (strat : List ℚ) (w : ℚ) :
    (n.strategySumAdd strat w).actionNum = n.actionNum
  ∧ (n.strategySumAdd strat w).regretSum = n.regretSum
  ∧ (n.strategySumAdd strat w).currentStrategy = n.currentStrategy
  ∧ (n.strategySumAdd strat w).averageStrategy = n.averageStrategy := by
  simp [Node.strategySumAdd]

theorem strategySumAdd_wf (n : Node) (strat : List ℚ) (w : ℚ) (h : NodeWF n) :
    NodeWF (n.strategySumAdd strat w) := by
  obtain ⟨h1, h2, h3, h4⟩ := h
  exact ⟨by simpa [Node.strategySumAdd] using h1, by simpa [Node.strategySumAdd] using h2,
    by simp [Node.strategySumAdd], by simpa [Node.strategySumAdd] using h4⟩

theorem strategySumAdd_nneg (n : Node) (strat : List ℚ) (w : ℚ) (h : NodeNNeg n)
    (hw : 0 ≤ w) (hstrat : ∀ a, 0 ≤ strat.getD a 0) :
    NodeNNeg (n.strategySumAdd strat w) := by
  constructor
  · intro a
    simpa [Node.strategySumAdd] using h.1 a
  · intro a
    simp only [Node.strategySumAdd, getD_map_range]
    split
    · exact add_nonneg (h.2 a) (mul_nonneg hw (hstrat a))
    · exact le_refl 0

theorem strategySumAdd_mono (n : Node) (strat : List ℚ) (w : ℚ) (hWF : NodeWF n)
    (hw : 0 ≤ w) (hstrat : ∀ a, 0 ≤ strat.getD a 0) :
    ∀ a, n.strategySum.getD a 0 ≤ (n.strategySumAdd strat w).strategySum.getD a 0 := by
  intro a
  simp only [Node.strategySumAdd, getD_map_range]
  split
  · exact le_add_of_nonneg_right (mul_nonneg hw (hstrat a))
  · next hlt =>
    rw [List.getD_eq_default]
    rw [hWF.2.2.1]
    exact Nat.le_of_not_lt hlt

theorem ssEntry_setA_self (m : NodeMap) (k : Key) (n : Node) (a : Nat) :
    ssEntry (setA m k n) k a = n.strategySum.getD a 0 := by
  simp [ssEntry, findA_setA_self]

theorem ssEntry_setA_other (m : NodeMap) (k k' : Key) (n : Node) (a : Nat) (h : k ≠ k') :
    ssEntry (setA m k n) k' a = ssEntry m k' a := by
  simp [ssEntry, findA_setA_other _ _ _ _ h]

theorem setA_mapWF (m : NodeMap) (k : Key) (n : Node) (hm : MapWF m) (hn : NodeWF n) :
    MapWF (setA m k n) := by
  intro k' n' h
  by_cases hk : k = k'
  · subst hk
    rw [findA_setA_self] at h
    cases h
    exact hn
  · rw [findA_setA_other _ _ _ _ hk] at h
    exact hm k' n' h

theorem setA_mapNNeg (m : NodeMap) (k : Key) (n : Node) (hm : MapNNeg m) (hn : NodeNNeg n) :
    MapNNeg (setA m k n) := by
  intro k' n' h
  by_cases hk : k = k'
  · subst hk
    rw [findA_setA_self] at h
    cases h
    exact hn
  · rw [findA_setA_other _ _ _ _ hk] at h
    exact hm k' n' h

theorem fetchOrCreate_find (m : NodeMap) (key : Key) (actionNum : Nat) :
    findA (fetchOrCreate m key actionNum).2 key = some (fetchOrCreate m key actionNum).1 := by
  cases h : findA m key with
  | some n => simp [fetchOrCreate, h]
  | none => simp [fetchOrCreate, h, findA_setA_self]

theorem fetchOrCreate_preserves (m : NodeMap) (key : Key) (actionNum : Nat)
    (hWF : MapWF m) (hNN : MapNNeg m) :
    MapWF (fetchOrCreate m key actionNum).2 ∧ MapNNeg (fetchOrCreate m key actionNum).2
  ∧ (∀ k a, ssEntry m k a ≤ ssEntry (fetchOrCreate m key actionNum).2 k a)
  ∧ NodeWF (fetchOrCreate m key actionNum).1 ∧ NodeNNeg (fetchOrCreate m key actionNum).1 := by
  cases h : findA m key with
  | some n =>
    simp only [fetchOrCreate, h]
    exact ⟨hWF, hNN, fun k a => le_refl _, hWF key n h, hNN key n h⟩
  | none =>
    simp only [fetchOrCreate, h]
    refine ⟨setA_mapWF _ _ _ hWF (mkNode_wf actionNum),
      setA_mapNNeg _ _ _ hNN (mkNode_nneg actionNum), ?_,
      mkNode_wf actionNum, mkNode_nneg actionNum⟩
    intro k a
    by_cases hk : key = k
    · subst hk
      rw [ssEntry_setA_self]
      have h0 : ssEntry m key a = 0 := by simp [ssEntry, h]
      rw [h0]
      exact (mkNode_nneg actionNum).2 a
    · rw [ssEntry_setA_other _ _ _ _ _ hk]

theorem osProbability_nonneg (isLearner : Bool) (strategy : List ℚ) (actionNum : Nat)
    (hstrat : ∀ a, 0 ≤ strategy.getD a 0) :
    ∀ a, 0 ≤ (osProbability isLearner strategy actionNum).getD a 0 := by
  intro a
  cases isLearner
  · simp only [osProbability, Bool.false_eq_true, if_false, getD_map_range]
    split
    · exact hstrat a
    · exact le_refl 0
  · simp only [osProbability, if_true, getD_map_range]
    split
    · refine add_nonneg (div_nonneg (by norm_num [osEpsilon]) (Nat.cast_nonneg actionNum))
        (mul_nonneg (by norm_num [osEpsilon]) (hstrat a))
    · exact le_refl 0

theorem applyRegretUpdatesES_fields (nU : ℚ) (us : List ℚ) :
    ∀ (actions : List Nat) (node : Node),
      (applyRegretUpdatesES nU us node actions).actionNum = node.actionNum
    ∧ (applyRegretUpdatesES nU us node actions).strategySum = node.strategySum
    ∧ (applyRegretUpdatesES nU us node actions).currentStrategy = node.currentStrategy
    ∧ (applyRegretUpdatesES nU us node actions).averageStrategy = node.averageStrategy
    ∧ (applyRegretUpdatesES nU us node actions).regretSum.length = node.regretSum.length := by
  intro actions
  induction actions with
  | nil => intro node; exact ⟨rfl, rfl, rfl, rfl, rfl⟩
  | cons b rest ih =>
    intro node
    have h := ih (node.regretSumSet b (node.regretSumGet b + (us.getD b 0 - nU)))
    simpa [applyRegretUpdatesES, Node.regretSumSet, List.length_set] using h

theorem applyRegretUpdates_invs (po nU : ℚ) (us : List ℚ) (actions : List Nat) (node : Node) :
    (NodeWF node → NodeWF (applyRegretUpdates po nU us node actions))
  ∧ (NodeNNeg node → NodeNNeg (applyRegretUpdates po nU us node actions)) := by
  have hf := applyRegretUpdates_fields po nU us actions node
  constructor
  · rintro ⟨h1, h2, h3, h4⟩
    exact ⟨by rw [hf.2.2.2.1, hf.1]; exact h1, by rw [hf.2.2.1, hf.1]; exact h2,
      by rw [hf.2.1, hf.1]; exact h3, by rw [hf.2.2.2.2, hf.1]; exact h4⟩
  · rintro ⟨hc, hs⟩
    exact ⟨fun a => by rw [hf.2.2.1]; exact hc a, fun a => by rw [hf.2.1]; exact hs a⟩

theorem applyRegretUpdatesES_invs (nU : ℚ) (us : List ℚ) (actions : List Nat) (node : Node) :
    (NodeWF node → NodeWF (applyRegretUpdatesES nU us node actions))
  ∧ (NodeNNeg node → NodeNNeg (applyRegretUpdatesES nU us node actions)) := by
  have hf := applyRegretUpdatesES_fields nU us actions node
  constructor
  · rintro ⟨h1, h2, h3, h4⟩
    exact ⟨by rw [hf.2.2.2.2, hf.1]; exact h1, by rw [hf.2.2.1, hf.1]; exact h2,
      by rw [hf.2.1, hf.1]; exact h3, by rw [hf.2.2.2.1, hf.1]; exact h4⟩
  · rintro ⟨hc, hs⟩
    exact ⟨fun a => by rw [hf.2.2.1]; exact hc a, fun a => by rw [hf.2.1]; exact hs a⟩

theorem applyRegretUpdatesOS_invs (w pTail sChosen : ℚ) (cA : Nat) (actions : List Nat)
    (node : Node) :
    (NodeWF node → NodeWF (applyRegretUpdatesOS w pTail sChosen cA node actions))
  ∧ (NodeNNeg node → NodeNNeg (applyRegretUpdatesOS w pTail sChosen cA node actions)) := by
  have hf := applyRegretUpdatesOS_fields w pTail sChosen cA actions node
  constructor
  · rintro ⟨h1, h2, h3, h4⟩
    exact ⟨by rw [hf.2.2.1, hf.1]; exact h1, by rw [hf.2.2.2.1, hf.1]; exact h2,
      by rw [hf.2.1, hf.1]; exact h3, by rw [hf.2.2.2.2, hf.1]; exact h4⟩
  · rintro ⟨hc, hs⟩
    exact ⟨fun a => by rw [hf.2.2.2.1]; exact hc a, fun a => by rw [hf.2.1]; exact hs a⟩

theorem cfrChanceFold_preserves {S : Type} (G : GameIntf S)
    (recur : S → ℚ → TState → Except CfrError (ℚ × TState))
    (hcp : ∀ s', 0 ≤ G.chanceProbability s')
    (hrec : ∀ g2 po2 st1 u1 st2, 0 ≤ po2 → StInv st1 →
        recur g2 po2 st1 = .ok (u1, st2) → SsMono st1 st2 ∧ StInv st2)
    (g : S) (po : ℚ) (hpo : 0 ≤ po) :
    ∀ (actions : List Nat) (acc : ℚ) (st : TState) (u : ℚ) (st' : TState),
      StInv st → cfrChanceFold G recur g po actions acc st = .ok (u, st') →
      SsMono st st' ∧ StInv st' := by
  intro actions
  induction actions with
  | nil =>
    intro acc st u st' hinv h
    simp only [cfrChanceFold, Except.ok.injEq, Prod.mk.injEq] at h
    obtain ⟨-, h2⟩ := h
    subst h2
    exact ⟨fun k a => le_refl _, hinv⟩
  | cons b rest ih =>
    intro acc st u st' hinv h
    rw [cfrChanceFold] at h
    cases hstep : recur (G.takeAction g b) (po * G.chanceProbability (G.takeAction g b)) st with
    | error e =>
      rw [hstep] at h
      exact absurd h (by simp)
    | ok p =>
      obtain ⟨u1, st2⟩ := p
      rw [hstep] at h
      dsimp only at h
      have hh := hrec _ _ _ _ _ (mul_nonneg hpo (hcp _)) hinv hstep
      have hr := ih _ _ _ _ hh.2 h
      exact ⟨fun k a => le_trans (hh.1 k a) (hr.1 k a), hr.2⟩

theorem cfrFixedFold_preserves {S : Type} (G : GameIntf S)
    (recur : S → ℚ → TState → Except CfrError (ℚ × TState))
    (hrec : ∀ g2 po2 st1 u1 st2, 0 ≤ po2 → StInv st1 →
        recur g2 po2 st1 = .ok (u1, st2) → SsMono st1 st2 ∧ StInv st2)
    (g : S) (avg : List ℚ) (havg : ∀ a, 0 ≤ avg.getD a 0) (po : ℚ) (hpo : 0 ≤ po) :
    ∀ (actions : List Nat) (acc : ℚ) (st : TState) (u : ℚ) (st' : TState),
      StInv st → cfrFixedFold G recur g avg po actions acc st = .ok (u, st') →
      SsMono st st' ∧ StInv st' := by
  intro actions
  induction actions with
  | nil =>
    intro acc st u st' hinv h
    simp only [cfrFixedFold, Except.ok.injEq, Prod.mk.injEq] at h
    obtain ⟨-, h2⟩ := h
    subst h2
    exact ⟨fun k a => le_refl _, hinv⟩
  | cons b rest ih =>
    intro acc st u st' hinv h
    rw [cfrFixedFold] at h
    cases hstep : recur (G.takeAction g b) (po * avg.getD b 0) st with
    | error e =>
      rw [hstep] at h
      exact absurd h (by simp)
    | ok p =>
      obtain ⟨u1, st2⟩ := p
      rw [hstep] at h
      dsimp only at h
      have hh := hrec _ _ _ _ _ (mul_nonneg hpo (havg b)) hinv hstep
      have hr := ih _ _ _ _ hh.2 h
      exact ⟨fun k a => le_trans (hh.1 k a) (hr.1 k a), hr.2⟩

theorem cfrChildren_preserves {S : Type} (G : GameIntf S)
    (recur : S → ℚ → ℚ → TState → Except CfrError (ℚ × TState))
    (hrec : ∀ g2 pi2 po2 st1 u1 st2, 0 ≤ pi2 → 0 ≤ po2 → StInv st1 →
        recur g2 pi2 po2 st1 = .ok (u1, st2) → SsMono st1 st2 ∧ StInv st2)
    (g : S) (isLearner : Bool) (strategy : List ℚ) (hstrat : ∀ a, 0 ≤ strategy.getD a 0)
    (pi po : ℚ) (hpi : 0 ≤ pi) (hpo : 0 ≤ po) :
    ∀ (actions : List Nat) (st : TState) (us : List ℚ) (st' : TState),
      StInv st → cfrChildren G recur g isLearner strategy pi po actions st = .ok (us, st') →
      SsMono st st' ∧ StInv st' := by
  intro actions
  induction actions with
  | nil =>
    intro st us st' hinv h
    simp only [cfrChildren, Except.ok.injEq, Prod.mk.injEq] at h
    obtain ⟨-, h2⟩ := h
    subst h2
    exact ⟨fun k a => le_refl _, hinv⟩
  | cons b rest ih =>
    intro st us st' hinv h
    rw [cfrChildren] at h
    cases hstep : (if isLearner then recur (G.takeAction g b) (pi * strategy.getD b 0) po st
        else recur (G.takeAction g b) pi (po * strategy.getD b 0) st) with
    | error e =>
      rw [hstep] at h
      exact absurd h (by simp)
    | ok p =>
      obtain ⟨u1, st2⟩ := p
      rw [hstep] at h
      dsimp only at h
      have hh : SsMono st st2 ∧ StInv st2 := by
        cases isLearner
        · simp only [Bool.false_eq_true, if_false] at hstep
          exact hrec _ _ _ _ _ _ hpi (mul_nonneg hpo (hstrat b)) hinv hstep
        · simp only [if_true] at hstep
          exact hrec _ _ _ _ _ _ (mul_nonneg hpi (hstrat b)) hpo hinv hstep
      cases hrest : cfrChildren G recur g isLearner strategy pi po rest st2 with
      | error e =>
        rw [hrest] at h
        exact absurd h (by simp)
      | ok q =>
        obtain ⟨us2, st3⟩ := q
        rw [hrest] at h
        simp only [Except.ok.injEq, Prod.mk.injEq] at h
        obtain ⟨-, h3⟩ := h
        subst h3
        have hr := ih _ _ _ hh.2 hrest
        exact ⟨fun k a => le_trans (hh.1 k a) (hr.1 k a), hr.2⟩

theorem esChildren_preserves {S : Type} (G : GameIntf S)
    (recur : S → TState → Except CfrError (ℚ × TState))
    (hrec : ∀ g2 st1 u1 st2, StInv st1 →
        recur g2 st1 = .ok (u1, st2) → SsMono st1 st2 ∧ StInv st2)
    (g : S) :
    ∀ (actions : List Nat) (st : TState) (us : List ℚ) (st' : TState),
      StInv st → esChildren G recur g actions st = .ok (us, st') →
      SsMono st st' ∧ StInv st' := by
  intro actions
  induction actions with
  | nil =>
    intro st us st' hinv h
    simp only [esChildren, Except.ok.injEq, Prod.mk.injEq] at h
    obtain ⟨-, h2⟩ := h
    subst h2
    exact ⟨fun k a => le_refl _, hinv⟩
  | cons b rest ih =>
    intro st us st' hinv h
    rw [esChildren] at h
    cases hstep : recur (G.takeAction g b) st with
    | error e =>
      rw [hstep] at h
      exact absurd h (by simp)
    | ok p =>
      obtain ⟨u1, st2⟩ := p
      rw [hstep] at h
      dsimp only at h
      have hh := hrec _ _ _ _ hinv hstep
      cases hrest : esChildren G recur g rest st2 with
      | error e =>
        rw [hrest] at h
        exact absurd h (by simp)
      | ok q =>
        obtain ⟨us2, st3⟩ := q
        rw [hrest] at h
        simp only [Except.ok.injEq, Prod.mk.injEq] at h
        obtain ⟨-, h3⟩ := h
        subst h3
        have hr := ih _ _ _ hh.2 hrest
        exact ⟨fun k a => le_trans (hh.1 k a) (hr.1 k a), hr.2⟩

theorem getD_fallback_wf (m : NodeMap) (key : Key) (fallback : Node)
    (hm : MapWF m) (hfb : NodeWF fallback) : NodeWF ((findA m key).getD fallback) := by
  cases hf : findA m key with
  | some n => simpa using hm key n hf
  | none => simpa using hfb

theorem getD_fallback_nneg (m : NodeMap) (key : Key) (fallback : Node)
    (hm : MapNNeg m) (hfb : NodeNNeg fallback) : NodeNNeg ((findA m key).getD fallback) := by
  cases hf : findA m key with
  | some n => simpa using hm key n hf
  | none => simpa using hfb

theorem ssEntry_le_fallback (m : NodeMap) (key : Key) (fallback : Node)
    (hfb : NodeNNeg fallback) (a : Nat) :
    ssEntry m key a ≤ ((findA m key).getD fallback).strategySum.getD a 0 := by
  cases hf : findA m key with
  | some n => simp [ssEntry, hf]
  | none => simpa [ssEntry, hf] using hfb.2 a

theorem writeback_node_preserves (st2 : TState) (key : Key) (nd : Node)
    (hinv2 : StInv st2) (hndWF : NodeWF nd) (hndNN : NodeNNeg nd)
    (hge : ∀ a, ssEntry st2.nodeMap key a ≤ nd.strategySum.getD a 0) :
    SsMono st2 { st2 with nodeMap := setA st2.nodeMap key nd }
  ∧ StInv { st2 with nodeMap := setA st2.nodeMap key nd } := by
  refine ⟨?_, setA_mapWF _ _ _ hinv2.1 hndWF, setA_mapNNeg _ _ _ hinv2.2 hndNN⟩
  intro k a
  by_cases hk : key = k
  · subst hk
    rw [show ({ st2 with nodeMap := setA st2.nodeMap key nd } : TState).nodeMap
        = setA st2.nodeMap key nd from rfl, ssEntry_setA_self]
    exact hge a
  · rw [show ({ st2 with nodeMap := setA st2.nodeMap key nd } : TState).nodeMap
        = setA st2.nodeMap key nd from rfl, ssEntry_setA_other _ _ _ _ _ hk]

theorem learner_writeback_preserves (st2 : TState) (key : Key) (fallback : Node)
    (strategy : List ℚ) (pi po nodeUtil : ℚ) (us : List ℚ) (actions : List Nat)
    (hinv2 : StInv st2) (hfbWF : NodeWF fallback) (hfbNN : NodeNNeg fallback)
    (hσ : ∀ a, 0 ≤ strategy.getD a 0) (hpi : 0 ≤ pi) :
    SsMono st2 { st2 with nodeMap := setA st2.nodeMap key
                            ((applyRegretUpdates po nodeUtil us
                              ((findA st2.nodeMap key).getD fallback)
                              actions).strategySumAdd strategy pi) }
  ∧ StInv { st2 with nodeMap := setA st2.nodeMap key
                       ((applyRegretUpdates po nodeUtil us
                         ((findA st2.nodeMap key).getD fallback)
                         actions).strategySumAdd strategy pi) } := by
  have hnd0WF := getD_fallback_wf st2.nodeMap key fallback hinv2.1 hfbWF
  have hnd0NN := getD_fallback_nneg st2.nodeMap key fallback hinv2.2 hfbNN
  have hnd1WF := (applyRegretUpdates_invs po nodeUtil us actions _).1 hnd0WF
  have hnd1NN := (applyRegretUpdates_invs po nodeUtil us actions _).2 hnd0NN
  refine writeback_node_preserves st2 key _ hinv2
    (strategySumAdd_wf _ _ _ hnd1WF) (strategySumAdd_nneg _ _ _ hnd1NN hpi hσ) ?_
  intro a
  refine le_trans (ssEntry_le_fallback st2.nodeMap key fallback hfbNN a) ?_
  refine le_trans ?_ (strategySumAdd_mono _ strategy pi hnd1WF hpi hσ a)
  rw [(applyRegretUpdates_fields po nodeUtil us actions _).2.1]

theorem accumulate_writeback_preserves (st2 : TState) (key : Key) (fallback : Node)
    (strategy : List ℚ) (w : ℚ)
    (hinv2 : StInv st2) (hfbWF : NodeWF fallback) (hfbNN : NodeNNeg fallback)
    (hσ : ∀ a, 0 ≤ strategy.getD a 0) (hw : 0 ≤ w) :
    SsMono st2 { st2 with nodeMap := setA st2.nodeMap key
                            (((findA st2.nodeMap key).getD fallback).strategySumAdd strategy w) }
  ∧ StInv { st2 with nodeMap := setA st2.nodeMap key
                       (((findA st2.nodeMap key).getD fallback).strategySumAdd strategy w) } := by
  have hnd0WF := getD_fallback_wf st2.nodeMap key fallback hinv2.1 hfbWF
  have hnd0NN := getD_fallback_nneg st2.nodeMap key fallback hinv2.2 hfbNN
  refine writeback_node_preserves st2 key _ hinv2
    (strategySumAdd_wf _ _ _ hnd0WF) (strategySumAdd_nneg _ _ _ hnd0NN hw hσ) ?_
  intro a
  exact le_trans (ssEntry_le_fallback st2.nodeMap key fallback hfbNN a)
    (strategySumAdd_mono _ strategy w hnd0WF hw hσ a)

theorem esRegrets_writeback_preserves (st2 : TState) (key : Key) (fallback : Node)
    (nodeUtil : ℚ) (us : List ℚ) (actions : List Nat)
    (hinv2 : StInv st2) (hfbWF : NodeWF fallback) (hfbNN : NodeNNeg fallback) :
    SsMono st2 { st2 with nodeMap := setA st2.nodeMap key
                            (applyRegretUpdatesES nodeUtil us
                              ((findA st2.nodeMap key).getD fallback) actions) }
  ∧ StInv { st2 with nodeMap := setA st2.nodeMap key
                       (applyRegretUpdatesES nodeUtil us
                         ((findA st2.nodeMap key).getD fallback) actions) } := by
  have hnd0WF := getD_fallback_wf st2.nodeMap key fallback hinv2.1 hfbWF
  have hnd0NN := getD_fallback_nneg st2.nodeMap key fallback hinv2.2 hfbNN
  refine writeback_node_preserves st2 key _ hinv2
    ((applyRegretUpdatesES_invs nodeUtil us actions _).1 hnd0WF)
    ((applyRegretUpdatesES_invs nodeUtil us actions _).2 hnd0NN) ?_
  intro a
  rw [(applyRegretUpdatesES_fields nodeUtil us actions _).2.1]
  exact ssEntry_le_fallback st2.nodeMap key fallback hfbNN a

theorem osRegrets_writeback_preserves (st2 : TState) (key : Key) (fallback : Node)
    (w pTail sChosen : ℚ) (cA : Nat) (actions : List Nat)
    (hinv2 : StInv st2) (hfbWF : NodeWF fallback) (hfbNN : NodeNNeg fallback) :
    SsMono st2 { st2 with nodeMap := setA st2.nodeMap key
                            (applyRegretUpdatesOS w pTail sChosen cA
                              ((findA st2.nodeMap key).getD fallback) actions) }
  ∧ StInv { st2 with nodeMap := setA st2.nodeMap key
                       (applyRegretUpdatesOS w pTail sChosen cA
                         ((findA st2.nodeMap key).getD fallback) actions) } := by
  have hnd0WF := getD_fallback_wf st2.nodeMap key fallback hinv2.1 hfbWF
  have hnd0NN := getD_fallback_nneg st2.nodeMap key fallback hinv2.2 hfbNN
  refine writeback_node_preserves st2 key _ hinv2
    ((applyRegretUpdatesOS_invs w pTail sChosen cA actions _).1 hnd0WF)
    ((applyRegretUpdatesOS_invs w pTail sChosen cA actions _).2 hnd0NN) ?_
  intro a
  rw [(applyRegretUpdatesOS_fields w pTail sChosen cA actions _).2.1]
  exact ssEntry_le_fallback st2.nodeMap key fallback hfbNN a

theorem CFR_preserves {S : Type} (C : TrainerCtx S)
    (hcp : ∀ s', 0 ≤ C.G.chanceProbability s')
    (hfix : ∀ p k a, 0 ≤ (C.fixedAvg p k).getD a 0) :
    ∀ (fuel : Nat) (g : S) (playerIndex : Nat) (pi po : ℚ) (st : TState) (u : ℚ) (st' : TState),
      0 ≤ pi → 0 ≤ po → StInv st →
      CFR C fuel g playerIndex pi po st = .ok (u, st') →
      SsMono st st' ∧ StInv st' := by
  intro fuel
  induction fuel with
  | zero =>
    intro g playerIndex pi po st u st' _ _ _ h
    exact absurd h (by simp [CFR])
  | succ fuel ih =>
    intro g playerIndex pi po st u st' hpi hpo hinv hOk
    by_cases hGO : C.G.isGameOver g = true
    · simp only [CFR, hGO, if_true] at hOk
      simp only [Except.ok.injEq, Prod.mk.injEq] at hOk
      obtain ⟨-, h2⟩ := hOk
      subst h2
      exact ⟨fun k a => le_refl _, hinv⟩
    · have hGO' : C.G.isGameOver g = false := by
        cases h : C.G.isGameOver g
        · rfl
        · exact absurd h hGO
      by_cases hCh : C.G.isChanceNode g = true
      · simp only [CFR, hGO', hCh, Bool.false_eq_true, if_false, if_true] at hOk
        exact cfrChanceFold_preserves C.G _ hcp
          (fun g2 po2 st1 u1 st2 hpo2 hinv1 hr =>
            ih g2 playerIndex pi po2 st1 u1 st2 hpi hpo2 hinv1 hr)
          g po hpo _ _ st.touch _ st' hinv hOk
      · have hCh' : C.G.isChanceNode g = false := by
          cases h : C.G.isChanceNode g
          · rfl
          · exact absurd h hCh
        by_cases hUp : C.update (C.G.currentPlayer g) = true
        · simp only [CFR, hGO', hCh', hUp, Bool.not_true, Bool.false_eq_true, if_false] at hOk
          obtain ⟨hWF2, hNN2, hmono1, hndWF, hndNN⟩ :=
            fetchOrCreate_preserves st.touch.nodeMap (C.G.infoSetStr g) (C.G.actionNum g)
              hinv.1 hinv.2
          cases hcc : cfrChildren C.G
              (fun g2 pi2 po2 st2 => CFR C fuel g2 playerIndex pi2 po2 st2) g
              (C.G.currentPlayer g == playerIndex)
              (fetchOrCreate st.touch.nodeMap (C.G.infoSetStr g)
                (C.G.actionNum g)).1.currentStrategy
              pi po (List.range (C.G.actionNum g))
              { st.touch with
                nodeMap := (fetchOrCreate st.touch.nodeMap (C.G.infoSetStr g)
                             (C.G.actionNum g)).2 } with
          | error e =>
            rw [hcc] at hOk
            exact absurd hOk (by simp)
          | ok p =>
            obtain ⟨us, st2⟩ := p
            rw [hcc] at hOk
            dsimp only at hOk
            have hch := cfrChildren_preserves C.G _
              (fun g2 pi2 po2 st1 u1 st2' hpi2 hpo2 hinv1 hr =>
                ih g2 playerIndex pi2 po2 st1 u1 st2' hpi2 hpo2 hinv1 hr)
              g _ _ hndNN.1 pi po hpi hpo _ _ _ _ ⟨hWF2, hNN2⟩ hcc
            by_cases hP : (C.G.currentPlayer g == playerIndex) = true
            · rw [if_pos hP] at hOk
              simp only [Except.ok.injEq, Prod.mk.injEq] at hOk
              obtain ⟨-, hst⟩ := hOk
              subst hst
              have hw := learner_writeback_preserves st2 (C.G.infoSetStr g)
                (fetchOrCreate st.touch.nodeMap (C.G.infoSetStr g) (C.G.actionNum g)).1
                (fetchOrCreate st.touch.nodeMap (C.G.infoSetStr g)
                  (C.G.actionNum g)).1.currentStrategy
                pi po
                (dotRange (fetchOrCreate st.touch.nodeMap (C.G.infoSetStr g)
                  (C.G.actionNum g)).1.currentStrategy us (C.G.actionNum g))
                us (List.range (C.G.actionNum g)) hch.2 hndWF hndNN hndNN.1 hpi
              exact ⟨fun k a => le_trans (hmono1 k a) (le_trans (hch.1 k a) (hw.1 k a)), hw.2⟩
            · rw [if_neg hP] at hOk
              simp only [Except.ok.injEq, Prod.mk.injEq] at hOk
              obtain ⟨-, hst⟩ := hOk
              subst hst
              exact ⟨fun k a => le_trans (hmono1 k a) (hch.1 k a), hch.2⟩
        · have hUp' : C.update (C.G.currentPlayer g) = false := by
            cases h : C.update (C.G.currentPlayer g)
            · rfl
            · exact absurd h hUp
          simp only [CFR, hGO', hCh', hUp', Bool.not_false, if_true, Bool.false_eq_true,
            if_false] at hOk
          exact cfrFixedFold_preserves C.G _
            (fun g2 po2 st1 u1 st2 hpo2 hinv1 hr =>
              ih g2 playerIndex pi po2 st1 u1 st2 hpi hpo2 hinv1 hr)
            g _ (hfix _ _) po hpo _ _ st.touch _ st' hinv hOk

theorem chanceSamplingCFR_preserves {S : Type} (C : TrainerCtx S) :
    ∀ (fuel : Nat) (g : S) (playerIndex : Nat) (pi po : ℚ) (st : TState) (u : ℚ) (st' : TState),
      0 ≤ pi → 0 ≤ po → StInv st →
      chanceSamplingCFR C fuel g playerIndex pi po st = .ok (u, st') →
      SsMono st st' ∧ StInv st' := by
  intro fuel
  induction fuel with
  | zero =>
    intro g playerIndex pi po st u st' _ _ _ h
    exact absurd h (by simp [chanceSamplingCFR])
  | succ fuel ih =>
    intro g playerIndex pi po st u st' hpi hpo hinv hOk
    by_cases hGO : C.G.isGameOver g = true
    · simp only [chanceSamplingCFR, hGO, if_true] at hOk
      simp only [Except.ok.injEq, Prod.mk.injEq] at hOk
      obtain ⟨-, h2⟩ := hOk
      subst h2
      exact ⟨fun k a => le_refl _, hinv⟩
    · have hGO' : C.G.isGameOver g = false := by
        cases h : C.G.isGameOver g
        · rfl
        · exact absurd h hGO
      by_cases hUp : C.update (C.G.currentPlayer g) = true
      · simp only [chanceSamplingCFR, hGO', hUp, Bool.not_true, Bool.false_eq_true,
          if_false] at hOk
        obtain ⟨hWF2, hNN2, hmono1, hndWF, hndNN⟩ :=
          fetchOrCreate_preserves st.touch.nodeMap (C.G.infoSetStr g) (C.G.actionNum g)
            hinv.1 hinv.2
        cases hcc : cfrChildren C.G
            (fun g2 pi2 po2 st2 => chanceSamplingCFR C fuel g2 playerIndex pi2 po2 st2) g
            (C.G.currentPlayer g == playerIndex)
            (fetchOrCreate st.touch.nodeMap (C.G.infoSetStr g)
              (C.G.actionNum g)).1.currentStrategy
            pi po (List.range (C.G.actionNum g))
            { st.touch with
              nodeMap := (fetchOrCreate st.touch.nodeMap (C.G.infoSetStr g)
                           (C.G.actionNum g)).2 } with
        | error e =>
          rw [hcc] at hOk
          exact absurd hOk (by simp)
        | ok p =>
          obtain ⟨us, st2⟩ := p
          rw [hcc] at hOk
          dsimp only at hOk
          have hch := cfrChildren_preserves C.G _
            (fun g2 pi2 po2 st1 u1 st2' hpi2 hpo2 hinv1 hr =>
              ih g2 playerIndex pi2 po2 st1 u1 st2' hpi2 hpo2 hinv1 hr)
            g _ _ hndNN.1 pi po hpi hpo _ _ _ _ ⟨hWF2, hNN2⟩ hcc
          by_cases hP : (C.G.currentPlayer g == playerIndex) = true
          · rw [if_pos hP] at hOk
            simp only [Except.ok.injEq, Prod.mk.injEq] at hOk
            obtain ⟨-, hst⟩ := hOk
            subst hst
            have hw := learner_writeback_preserves st2 (C.G.infoSetStr g)
              (fetchOrCreate st.touch.nodeMap (C.G.infoSetStr g) (C.G.actionNum g)).1
              (fetchOrCreate st.touch.nodeMap (C.G.infoSetStr g)
                (C.G.actionNum g)).1.currentStrategy
              pi po
              (dotRange (fetchOrCreate st.touch.nodeMap (C.G.infoSetStr g)
                (C.G.actionNum g)).1.currentStrategy us (C.G.actionNum g))
              us (List.range (C.G.actionNum g)) hch.2 hndWF hndNN hndNN.1 hpi
            exact ⟨fun k a => le_trans (hmono1 k a) (le_trans (hch.1 k a) (hw.1 k a)), hw.2⟩
          · rw [if_neg hP] at hOk
            simp only [Except.ok.injEq, Prod.mk.injEq] at hOk
            obtain ⟨-, hst⟩ := hOk
            subst hst
            exact ⟨fun k a => le_trans (hmono1 k a) (hch.1 k a), hch.2⟩
      · have hUp' : C.update (C.G.currentPlayer g) = false := by
          cases h : C.update (C.G.currentPlayer g)
          · rfl
          · exact absurd h hUp
        simp only [chanceSamplingCFR, hGO', hUp', Bool.not_false, if_true, Bool.false_eq_true,
          if_false, drawIdx] at hOk
        exact ih _ playerIndex pi po
          { nodeMap := st.touch.nodeMap, touched := st.touch.touched, rng := st.touch.rng.tail }
          u st' hpi hpo hinv hOk

theorem refresh_store_preserves (m : NodeMap) (key : Key) (actionNum : Nat)
    (hWF : MapWF m) (hNN : MapNNeg m) :
    (∀ k a, ssEntry m k a ≤ ssEntry (setA (fetchOrCreate m key actionNum).2 key
        (fetchOrCreate m key actionNum).1.updateStrategy) k a)
  ∧ MapWF (setA (fetchOrCreate m key actionNum).2 key
      (fetchOrCreate m key actionNum).1.updateStrategy)
  ∧ MapNNeg (setA (fetchOrCreate m key actionNum).2 key
      (fetchOrCreate m key actionNum).1.updateStrategy)
  ∧ NodeWF ((fetchOrCreate m key actionNum).1.updateStrategy)
  ∧ NodeNNeg ((fetchOrCreate m key actionNum).1.updateStrategy) := by
  obtain ⟨hWF2, hNN2, hmono1, hndWF, hndNN⟩ := fetchOrCreate_preserves m key actionNum hWF hNN
  have huWF := updateStrategy_wf _ hndWF
  have huNN := updateStrategy_nneg _ hndNN
  refine ⟨?_, setA_mapWF _ _ _ hWF2 huWF, setA_mapNNeg _ _ _ hNN2 huNN, huWF, huNN⟩
  intro k a
  by_cases hk : key = k
  · subst hk
    rw [ssEntry_setA_self, (updateStrategy_preserves _).2.2.1]
    refine le_trans (hmono1 key a) ?_
    rw [show ssEntry (fetchOrCreate m key actionNum).2 key a
        = (fetchOrCreate m key actionNum).1.strategySum.getD a 0 from by
      simp [ssEntry, fetchOrCreate_find]]
  · rw [ssEntry_setA_other _ _ _ _ _ hk]
    exact hmono1 k a

theorem externalSamplingCFR_preserves {S : Type} (C : TrainerCtx S) :
    ∀ (fuel : Nat) (g : S) (playerIndex : Nat) (st : TState) (u : ℚ) (st' : TState),
      StInv st →
      externalSamplingCFR C fuel g playerIndex st = .ok (u, st') →
      SsMono st st' ∧ StInv st' := by
  intro fuel
  induction fuel with
  | zero =>
    intro g playerIndex st u st' _ h
    exact absurd h (by simp [externalSamplingCFR])
  | succ fuel ih =>
    intro g playerIndex st u st' hinv hOk
    by_cases hGO : C.G.isGameOver g = true
    · simp only [externalSamplingCFR, hGO, if_true] at hOk
      simp only [Except.ok.injEq, Prod.mk.injEq] at hOk
      obtain ⟨-, h2⟩ := hOk
      subst h2
      exact ⟨fun k a => le_refl _, hinv⟩
    · have hGO' : C.G.isGameOver g = false := by
        cases h : C.G.isGameOver g
        · rfl
        · exact absurd h hGO
      by_cases hUp : C.update (C.G.currentPlayer g) = true
      · simp only [externalSamplingCFR, hGO', hUp, Bool.not_true, Bool.false_eq_true,
          if_false, drawIdx] at hOk
        obtain ⟨hmono1, hWF1, hNN1, huWF, huNN⟩ :=
          refresh_store_preserves st.touch.nodeMap (C.G.infoSetStr g) (C.G.actionNum g)
            hinv.1 hinv.2
        by_cases hNe : (C.G.currentPlayer g != playerIndex) = true
        · rw [if_pos hNe] at hOk
          cases hrec : externalSamplingCFR C fuel
              (C.G.takeAction g
                (({ st.touch with
                    nodeMap := setA (fetchOrCreate st.touch.nodeMap (C.G.infoSetStr g)
                                 (C.G.actionNum g)).2 (C.G.infoSetStr g)
                                 (fetchOrCreate st.touch.nodeMap (C.G.infoSetStr g)
                                   (C.G.actionNum g)).1.updateStrategy } : TState).rng.headD 0))
              playerIndex
              { nodeMap := setA (fetchOrCreate st.touch.nodeMap (C.G.infoSetStr g)
                             (C.G.actionNum g)).2 (C.G.infoSetStr g)
                             (fetchOrCreate st.touch.nodeMap (C.G.infoSetStr g)
                               (C.G.actionNum g)).1.updateStrategy
                touched := st.touch.touched
                rng := st.touch.rng.tail } with
          | error e =>
            rw [hrec] at hOk
            exact absurd hOk (by simp)
          | ok p =>
            obtain ⟨u1, st2⟩ := p
            rw [hrec] at hOk
            dsimp only at hOk
            simp only [Except.ok.injEq, Prod.mk.injEq] at hOk
            obtain ⟨-, hst⟩ := hOk
            subst hst
            have hrr := ih _ playerIndex _ u1 st2 ⟨hWF1, hNN1⟩ hrec
            have hacc := accumulate_writeback_preserves st2 (C.G.infoSetStr g)
              ((fetchOrCreate st.touch.nodeMap (C.G.infoSetStr g)
                (C.G.actionNum g)).1.updateStrategy)
              ((fetchOrCreate st.touch.nodeMap (C.G.infoSetStr g)
                (C.G.actionNum g)).1.updateStrategy.currentStrategy) 1
              hrr.2 huWF huNN huNN.1 (by norm_num)
            exact ⟨fun k a => le_trans (hmono1 k a) (le_trans (hrr.1 k a) (hacc.1 k a)), hacc.2⟩
        · rw [if_neg hNe] at hOk
          cases hcc : esChildren C.G
              (fun g2 st2 => externalSamplingCFR C fuel g2 playerIndex st2) g
              (List.range (C.G.actionNum g))
              { st.touch with
                nodeMap := setA (fetchOrCreate st.touch.nodeMap (C.G.infoSetStr g)
                             (C.G.actionNum g)).2 (C.G.infoSetStr g)
                             (fetchOrCreate st.touch.nodeMap (C.G.infoSetStr g)
                               (C.G.actionNum g)).1.updateStrategy } with
          | error e =>
            rw [hcc] at hOk
            exact absurd hOk (by simp)
          | ok p =>
            obtain ⟨us, st2⟩ := p
            rw [hcc] at hOk
            dsimp only at hOk
            simp only [Except.ok.injEq, Prod.mk.injEq] at hOk
            obtain ⟨-, hst⟩ := hOk
            subst hst
            have hch := esChildren_preserves C.G _
              (fun g2 st1 u1 st2' hinv1 hr => ih g2 playerIndex st1 u1 st2' hinv1 hr)
              g _ _ _ _ ⟨hWF1, hNN1⟩ hcc
            have hreg := esRegrets_writeback_preserves st2 (C.G.infoSetStr g)
              ((fetchOrCreate st.touch.nodeMap (C.G.infoSetStr g)
                (C.G.actionNum g)).1.updateStrategy)
              (dotRange (fetchOrCreate st.touch.nodeMap (C.G.infoSetStr g)
                (C.G.actionNum g)).1.updateStrategy.currentStrategy us (C.G.actionNum g))
              us (List.range (C.G.actionNum g)) hch.2 huWF huNN
            exact ⟨fun k a => le_trans (hmono1 k a) (le_trans (hch.1 k a) (hreg.1 k a)), hreg.2⟩
      · have hUp' : C.update (C.G.currentPlayer g) = false := by
          cases h : C.update (C.G.currentPlayer g)
          · rfl
          · exact absurd h hUp
        simp only [externalSamplingCFR, hGO', hUp', Bool.not_false, if_true] at hOk
        exact absurd hOk (by simp)

theorem outcomeSamplingCFR_preserves {S : Type} (C : TrainerCtx S) :
    ∀ (fuel : Nat) (g : S) (playerIndex iteration : Nat) (pi po s : ℚ) (st : TState)
      (ut : ℚ × ℚ) (st' : TState),
      0 ≤ pi → 0 ≤ po → 0 ≤ s → StInv st →
      outcomeSamplingCFR C fuel g playerIndex iteration pi po s st = .ok (ut, st') →
      SsMono st st' ∧ StInv st' := by
  intro fuel
  induction fuel with
  | zero =>
    intro g playerIndex iteration pi po s st ut st' _ _ _ _ h
    exact absurd h (by simp [outcomeSamplingCFR])
  | succ fuel ih =>
    intro g playerIndex iteration pi po s st ut st' hpi hpo hs hinv hOk
    by_cases hGO : C.G.isGameOver g = true
    · simp only [outcomeSamplingCFR, hGO, if_true] at hOk
      simp only [Except.ok.injEq, Prod.mk.injEq] at hOk
      obtain ⟨-, h2⟩ := hOk
      subst h2
      exact ⟨fun k a => le_refl _, hinv⟩
    · have hGO' : C.G.isGameOver g = false := by
        cases h : C.G.isGameOver g
        · rfl
        · exact absurd h hGO
      by_cases hUp : C.update (C.G.currentPlayer g) = true
      · simp only [outcomeSamplingCFR, hGO', hUp, Bool.not_true, Bool.false_eq_true,
          if_false, drawIdx] at hOk
        obtain ⟨hmono1, hWF1, hNN1, huWF, huNN⟩ :=
          refresh_store_preserves st.touch.nodeMap (C.G.infoSetStr g) (C.G.actionNum g)
            hinv.1 hinv.2
        cases hrec : outcomeSamplingCFR C fuel (C.G.takeAction g (st.touch.rng.headD 0))
            playerIndex iteration
            (pi * (if (C.G.currentPlayer g == playerIndex) = true
                   then (fetchOrCreate st.touch.nodeMap (C.G.infoSetStr g)
                          (C.G.actionNum g)).1.updateStrategy.currentStrategy.getD
                          (st.touch.rng.headD 0) 0
                   else 1))
            (po * (if (C.G.currentPlayer g == playerIndex) = true
                   then 1
                   else (fetchOrCreate st.touch.nodeMap (C.G.infoSetStr g)
                          (C.G.actionNum g)).1.updateStrategy.currentStrategy.getD
                          (st.touch.rng.headD 0) 0))
            (s * (osProbability (C.G.currentPlayer g == playerIndex)
                   (fetchOrCreate st.touch.nodeMap (C.G.infoSetStr g)
                     (C.G.actionNum g)).1.updateStrategy.currentStrategy
                   (C.G.actionNum g)).getD (st.touch.rng.headD 0) 0)
            { nodeMap := setA (fetchOrCreate st.touch.nodeMap (C.G.infoSetStr g)
                           (C.G.actionNum g)).2 (C.G.infoSetStr g)
                           (fetchOrCreate st.touch.nodeMap (C.G.infoSetStr g)
                             (C.G.actionNum g)).1.updateStrategy
              touched := st.touch.touched
              rng := st.touch.rng.tail } with
        | error e =>
          rw [hrec] at hOk
          exact absurd hOk (by simp)
        | ok p =>
          obtain ⟨u1, st2⟩ := p
          obtain ⟨util, pTail⟩ := u1
          rw [hrec] at hOk
          dsimp only at hOk
          have hpi2 : 0 ≤ pi * (if (C.G.currentPlayer g == playerIndex) = true
              then (fetchOrCreate st.touch.nodeMap (C.G.infoSetStr g)
                     (C.G.actionNum g)).1.updateStrategy.currentStrategy.getD
                     (st.touch.rng.headD 0) 0
              else 1) := by
            refine mul_nonneg hpi ?_
            split
            · exact huNN.1 _
            · norm_num
          have hpo2 : 0 ≤ po * (if (C.G.currentPlayer g == playerIndex) = true
              then 1
              else (fetchOrCreate st.touch.nodeMap (C.G.infoSetStr g)
                     (C.G.actionNum g)).1.updateStrategy.currentStrategy.getD
                     (st.touch.rng.headD 0) 0) := by
            refine mul_nonneg hpo ?_
            split
            · norm_num
            · exact huNN.1 _
          have hs2 : 0 ≤ s * (osProbability (C.G.currentPlayer g == playerIndex)
              (fetchOrCreate st.touch.nodeMap (C.G.infoSetStr g)
                (C.G.actionNum g)).1.updateStrategy.currentStrategy
              (C.G.actionNum g)).getD (st.touch.rng.headD 0) 0 :=
            mul_nonneg hs (osProbability_nonneg _ _ _ huNN.1 _)
          have hrr := ih _ playerIndex iteration _ _ _ _ (util, pTail) st2
            hpi2 hpo2 hs2 ⟨hWF1, hNN1⟩ hrec
          by_cases hP : (C.G.currentPlayer g == playerIndex) = true
          · rw [if_pos hP] at hOk
            simp only [Except.ok.injEq, Prod.mk.injEq] at hOk
            obtain ⟨-, hst⟩ := hOk
            subst hst
            have hreg := osRegrets_writeback_preserves st2 (C.G.infoSetStr g)
              ((fetchOrCreate st.touch.nodeMap (C.G.infoSetStr g)
                (C.G.actionNum g)).1.updateStrategy)
              (util * po) pTail
              ((fetchOrCreate st.touch.nodeMap (C.G.infoSetStr g)
                (C.G.actionNum g)).1.updateStrategy.currentStrategy.getD
                (st.touch.rng.headD 0) 0)
              (st.touch.rng.headD 0) (List.range (C.G.actionNum g)) hrr.2 huWF huNN
            exact ⟨fun k a => le_trans (hmono1 k a) (le_trans (hrr.1 k a) (hreg.1 k a)), hreg.2⟩
          · rw [if_neg hP] at hOk
            simp only [Except.ok.injEq, Prod.mk.injEq] at hOk
            obtain ⟨-, hst⟩ := hOk
            subst hst
            have hacc := accumulate_writeback_preserves st2 (C.G.infoSetStr g)
              ((fetchOrCreate st.touch.nodeMap (C.G.infoSetStr g)
                (C.G.actionNum g)).1.updateStrategy)
              ((fetchOrCreate st.touch.nodeMap (C.G.infoSetStr g)
                (C.G.actionNum g)).1.updateStrategy.currentStrategy) (po / s)
              hrr.2 huWF huNN huNN.1 (div_nonneg hpo hs)
            exact ⟨fun k a => le_trans (hmono1 k a) (le_trans (hrr.1 k a) (hacc.1 k a)), hacc.2⟩
      · have hUp' : C.update (C.G.currentPlayer g) = false := by
          cases h : C.update (C.G.currentPlayer g)
          · rfl
          · exact absurd h hUp
        simp only [outcomeSamplingCFR, hGO', hUp', Bool.not_false, if_true] at hOk
        exact absurd hOk (by simp)

/-- C6: across all four solvers, every `strategySum` entry is
non-negative and never decreases.  Each solver call that succeeds maps
a well-formed, sign-correct node map to one again well-formed and
sign-correct (`StInv`, which contains entrywise non-negativity of
every table's `strategySum`), and every entry is monotone
non-decreasing (`SsMono`): the only writes are `accumulateStrategy`
calls with non-negative weight (`π_i`, `1.0`, or `π_{-i}/s`) and a
non-negative strategy vector, plus regret writes that leave
`strategySum` untouched.  The hypotheses are the sign facts the games
provide: non-negative chance probabilities, non-negative fixed average
strategies, and (for the sampling reaches) non-negative initial
`π_i, π_{-i}, s`.  The last conjunct makes the non-negativity explicit:
under the preserved invariant every `strategySum` entry is `≥ 0`. -/
theorem strategySum_nonneg_monotone {S : Type} (C : TrainerCtx S)
    (hcp : ∀ s', 0 ≤ C.G.chanceProbability s')
    (hfix : ∀ p k a, 0 ≤ (C.fixedAvg p k).getD a 0) :
    (∀ fuel g playerIndex pi po st u st',
       0 ≤ pi → 0 ≤ po → StInv st → CFR C fuel g playerIndex pi po st = .ok (u, st') →
       SsMono st st' ∧ StInv st')
  ∧ (∀ fuel g playerIndex pi po st u st',
       0 ≤ pi → 0 ≤ po → StInv st →
       chanceSamplingCFR C fuel g playerIndex pi po st = .ok (u, st') →
       SsMono st st' ∧ StInv st')
  ∧ (∀ fuel g playerIndex st u st',
       StInv st → externalSamplingCFR C fuel g playerIndex st = .ok (u, st') →
       SsMono st st' ∧ StInv st')
  ∧ (∀ fuel g playerIndex iteration pi po s st ut st',
       0 ≤ pi → 0 ≤ po → 0 ≤ s → StInv st →
       outcomeSamplingCFR C fuel g playerIndex iteration pi po s st = .ok (ut, st') →
       SsMono st st' ∧ StInv st')
  ∧ (∀ m : NodeMap, MapNNeg m → ∀ k a, 0 ≤ ssEntry m k a) := by
  refine ⟨?_, ?_, ?_, ?_, ?_⟩
  · intro fuel g playerIndex pi po st u st' hpi hpo hinv h
    exact CFR_preserves C hcp hfix fuel g playerIndex pi po st u st' hpi hpo hinv h
  · intro fuel g playerIndex pi po st u st' hpi hpo hinv h
    exact chanceSamplingCFR_preserves C fuel g playerIndex pi po st u st' hpi hpo hinv h
  · intro fuel g playerIndex st u st' hinv h
    exact externalSamplingCFR_preserves C fuel g playerIndex st u st' hinv h
  · intro fuel g playerIndex iteration pi po s st ut st' hpi hpo hs hinv h
    exact outcomeSamplingCFR_preserves C fuel g playerIndex iteration pi po s st ut st'
      hpi hpo hs hinv h
  · intro m hNN k a
    rw [ssEntry]
    cases hf : findA m k with
    | some n => exact (hNN k n hf).2 a
    | none => exact le_refl 0

/-- C6 witness: the vanilla conjunct evaluated on the concrete run of
`cfr_mini_eval` starting from the empty node map. -/
theorem strategySum_nonneg_monotone_witness :
    SsMono st0 cfrWitnessState ∧ StInv cfrWitnessState :=
  (strategySum_nonneg_monotone miniCtx (fun _ => zero_le_one)
      (fun _ _ _ => le_refl 0)).1 2 0 0 1 1 st0 (3/2) cfrWitnessState
    zero_le_one zero_le_one
    ⟨fun _ _ h => Option.noConfusion h, fun _ _ h => Option.noConfusion h⟩ cfr_mini_eval

/-! Claim C4 — the best-response pass at a node of the responding
player.  Supporting lemmas for the evaluator's loops. -/

theorem brActionsLoop_spec {S : Type} (recur : S → Brs → Option (ℚ × Brs)) (childOf : Nat → S) :
    ∀ (actions : List Nat) (brs : Brs) (us : List ℚ) (brsF : Brs),
      brActionsLoop recur childOf actions brs = some (us, brsF) →
      us.length = actions.length ∧
      ∃ f : Nat → Brs, f 0 = brs ∧ f actions.length = brsF ∧
        ∀ i, i < actions.length →
          recur (childOf (actions.getD i 0)) (f i) = some (us.getD i 0, f (i + 1)) := by
  intro actions
  induction actions with
  | nil =>
    intro brs us brsF h
    simp only [brActionsLoop, Option.some.injEq, Prod.mk.injEq] at h
    obtain ⟨h1, h2⟩ := h
    subst h1
    subst h2
    exact ⟨rfl, fun _ => brs, rfl, rfl, fun i hi => absurd hi (by simp)⟩
  | cons b rest ih =>
    intro brs us brsF h
    rw [brActionsLoop] at h
    cases hstep : recur (childOf b) brs with
    | none =>
      rw [hstep] at h
      exact absurd h (by simp)
    | some p =>
      obtain ⟨u1, brs2⟩ := p
      rw [hstep] at h
      dsimp only at h
      cases hrest : brActionsLoop recur childOf rest brs2 with
      | none =>
        rw [hrest] at h
        exact absurd h (by simp)
      | some q =>
        obtain ⟨us2, brs3⟩ := q
        rw [hrest] at h
        simp only [Option.some.injEq, Prod.mk.injEq] at h
        obtain ⟨h1, h2⟩ := h
        subst h1
        subst h2
        obtain ⟨hlen, f', hf0, hfEnd, hcalls⟩ := ih brs2 us2 _ hrest
        refine ⟨by simp [hlen], fun n => match n with | 0 => brs | Nat.succ m => f' m,
          rfl, by simpa using hfEnd, ?_⟩
        intro i hi
        match i with
        | 0 => simpa [hf0] using hstep
        | Nat.succ m =>
          have hm : m < rest.length := by simpa using hi
          simpa using hcalls m hm

theorem brEntriesLoop_spec {S : Type} (G : GameIntf S) (recur : S → ℚ → Brs → Option (ℚ × Brs))
    (actionNum : Nat) :
    ∀ (entries : List (S × ℚ)) (av0 : List ℚ) (brs : Brs) (av : List ℚ)
      (mat : List (List ℚ)) (brsF : Brs),
      brEntriesLoop G recur actionNum entries av0 brs = some (av, mat, brsF) →
      mat.length = entries.length
    ∧ (∀ a, a < actionNum → av.getD a 0 = av0.getD a 0 +
        ((entries.zip mat).map (fun ew => ew.1.2 * ew.2.getD a 0)).sum)
    ∧ (∀ i, ∀ hi : i < entries.length, ∃ brsIn brsOut,
        brActionsLoop (fun g2 brs2 => recur g2 (entries.get ⟨i, hi⟩).2 brs2)
            (fun a => G.takeAction (entries.get ⟨i, hi⟩).1 a) (List.range actionNum) brsIn
          = some (mat.getD i [], brsOut)) := by
  intro entries
  induction entries with
  | nil =>
    intro av0 brs av mat brsF h
    simp only [brEntriesLoop, Option.some.injEq, Prod.mk.injEq] at h
    obtain ⟨h1, h2, h3⟩ := h
    subst h1
    subst h2
    subst h3
    exact ⟨rfl, fun a _ => by simp, fun i hi => absurd hi (by simp)⟩
  | cons e rest ih =>
    intro av0 brs av mat brsF h
    rw [brEntriesLoop] at h
    cases hstep : brActionsLoop (fun g2 brs2 => recur g2 e.2 brs2)
        (fun a => G.takeAction e.1 a) (List.range actionNum) brs with
    | none =>
      rw [hstep] at h
      exact absurd h (by simp)
    | some p =>
      obtain ⟨brValues, brs2⟩ := p
      rw [hstep] at h
      dsimp only at h
      cases hrest : brEntriesLoop G recur actionNum rest
          ((List.range actionNum).map
            (fun a => av0.getD a 0 + e.2 * brValues.getD a 0)) brs2 with
      | none =>
        rw [hrest] at h
        exact absurd h (by simp)
      | some q =>
        obtain ⟨av2, mat2, brs3⟩ := q
        rw [hrest] at h
        simp only [Option.some.injEq, Prod.mk.injEq] at h
        obtain ⟨h1, h2, h3⟩ := h
        subst h1
        subst h2
        subst h3
        obtain ⟨hlen, hsum, hcalls⟩ := ih _ _ _ _ _ hrest
        refine ⟨by simp [hlen], ?_, ?_⟩
        · intro a ha
          rw [hsum a ha, getD_map_range]
          simp only [ha, if_true, List.zip_cons_cons, List.map_cons, List.sum_cons]
          ring
        · intro i hi
          match i with
          | 0 => exact ⟨brs, brs2, hstep⟩
          | Nat.succ m =>
            have hm : m < rest.length := by simpa using hi
            simpa using hcalls m hm

theorem argmaxScan_append (v : List ℚ) (l1 l2 : List Nat) (b : Nat) :
    argmaxScan v (l1 ++ l2) b = argmaxScan v l2 (argmaxScan v l1 b) := by
  induction l1 generalizing b with
  | nil => rfl
  | cons a rest ih => simp only [List.cons_append, argmaxScan]; exact ih _

theorem argmaxScan_range_spec (v : List ℚ) :
    ∀ A : Nat, 0 < A →
      argmaxScan v (List.range A) 0 < A
    ∧ (∀ a, a < A → v.getD a 0 ≤ v.getD (argmaxScan v (List.range A) 0) 0)
    ∧ (∀ j, j < argmaxScan v (List.range A) 0 →
        v.getD j 0 < v.getD (argmaxScan v (List.range A) 0) 0) := by
  intro A
  induction A with
  | zero => intro h; exact absurd h (by simp)
  | succ A ih =>
    intro _
    cases hA : A with
    | zero =>
      rw [show List.range 1 = [0] from rfl]
      simp only [argmaxScan, lt_irrefl, if_neg (lt_irrefl _)]
      refine ⟨by norm_num, ?_, ?_⟩
      · intro a ha
        interval_cases a
        exact le_refl _
      · intro j hj
        exact absurd hj (by simp)
    | succ B =>
      rw [← hA]
      have hApos : 0 < A := by rw [hA]; exact Nat.succ_pos B
      obtain ⟨hlt, hmax, hfirst⟩ := ih hApos
      rw [List.range_succ, argmaxScan_append]
      simp only [argmaxScan]
      by_cases hcmp : v.getD (argmaxScan v (List.range A) 0) 0 < v.getD A 0
      · rw [if_pos hcmp]
        refine ⟨Nat.lt_succ_self A, ?_, ?_⟩
        · intro a ha
          rcases Nat.lt_succ_iff_lt_or_eq.1 ha with h | h
          · exact le_of_lt (lt_of_le_of_lt (hmax a h) hcmp)
          · subst h
            exact le_refl _
        · intro j hj
          exact lt_of_le_of_lt (hmax j hj) hcmp
      · rw [if_neg hcmp]
        refine ⟨Nat.lt_succ_of_lt hlt, ?_, hfirst⟩
        intro a ha
        rcases Nat.lt_succ_iff_lt_or_eq.1 ha with h | h
        · exact hmax a h
        · subst h
          exact le_of_not_lt hcmp

theorem brExpectFold_bindings {S : Type} (recur : S → ℚ → Brs → Option (ℚ × Brs))
    (childOf : Nat → S) (weightOf : Nat → ℚ) (po : ℚ)
    (hrec : ∀ g2 po2 brs1 u brs2, recur g2 po2 brs1 = some (u, brs2) →
        ∀ k v, findA brs1 k = some v → findA brs2 k = some v) :
    ∀ (actions : List Nat) (acc : ℚ) (brs : Brs) (u : ℚ) (brs' : Brs),
      brExpectFold recur childOf weightOf po actions acc brs = some (u, brs') →
      ∀ k v, findA brs k = some v → findA brs' k = some v := by
  intro actions
  induction actions with
  | nil =>
    intro acc brs u brs' h k v hk
    simp only [brExpectFold, Option.some.injEq, Prod.mk.injEq] at h
    rw [← h.2]
    exact hk
  | cons b rest ih =>
    intro acc brs u brs' h k v hk
    rw [brExpectFold] at h
    cases hstep : recur (childOf b) (po * weightOf b) brs with
    | none =>
      rw [hstep] at h
      exact absurd h (by simp)
    | some p =>
      obtain ⟨u1, brs2⟩ := p
      rw [hstep] at h
      dsimp only at h
      exact ih _ _ _ _ h k v (hrec _ _ _ _ _ hstep k v hk)

theorem brActionsLoop_bindings {S : Type} (recur : S → Brs → Option (ℚ × Brs))
    (childOf : Nat → S)
    (hrec : ∀ g2 brs1 u brs2, recur g2 brs1 = some (u, brs2) →
        ∀ k v, findA brs1 k = some v → findA brs2 k = some v) :
    ∀ (actions : List Nat) (brs : Brs) (us : List ℚ) (brs' : Brs),
      brActionsLoop recur childOf actions brs = some (us, brs') →
      ∀ k v, findA brs k = some v → findA brs' k = some v := by
  intro actions
  induction actions with
  | nil =>
    intro brs us brs' h k v hk
    simp only [brActionsLoop, Option.some.injEq, Prod.mk.injEq] at h
    rw [← h.2]
    exact hk
  | cons b rest ih =>
    intro brs us brs' h k v hk
    rw [brActionsLoop] at h
    cases hstep : recur (childOf b) brs with
    | none =>
      rw [hstep] at h
      exact absurd h (by simp)
    | some p =>
      obtain ⟨u1, brs2⟩ := p
      rw [hstep] at h
      dsimp only at h
      cases hrest : brActionsLoop recur childOf rest brs2 with
      | none =>
        rw [hrest] at h
        exact absurd h (by simp)
      | some q =>
        obtain ⟨us2, brs3⟩ := q
        rw [hrest] at h
        simp only [Option.some.injEq, Prod.mk.injEq] at h
        rw [← h.2]
        exact ih _ _ _ hrest k v (hrec _ _ _ _ hstep k v hk)

theorem brEntriesLoop_bindings {S : Type} (G : GameIntf S)
    (recur : S → ℚ → Brs → Option (ℚ × Brs)) (actionNum : Nat)
    (hrec : ∀ g2 po2 brs1 u brs2, recur g2 po2 brs1 = some (u, brs2) →
        ∀ k v, findA brs1 k = some v → findA brs2 k = some v) :
    ∀ (entries : List (S × ℚ)) (av0 : List ℚ) (brs : Brs) (av : List ℚ)
      (mat : List (List ℚ)) (brs' : Brs),
      brEntriesLoop G recur actionNum entries av0 brs = some (av, mat, brs') →
      ∀ k v, findA brs k = some v → findA brs' k = some v := by
  intro entries
  induction entries with
  | nil =>
    intro av0 brs av mat brs' h k v hk
    simp only [brEntriesLoop, Option.some.injEq, Prod.mk.injEq] at h
    rw [← h.2.2]
    exact hk
  | cons e rest ih =>
    intro av0 brs av mat brs' h k v hk
    rw [brEntriesLoop] at h
    cases hstep : brActionsLoop (fun g2 brs2 => recur g2 e.2 brs2)
        (fun a => G.takeAction e.1 a) (List.range actionNum) brs with
    | none =>
      rw [hstep] at h
      exact absurd h (by simp)
    | some p =>
      obtain ⟨brValues, brs2⟩ := p
      rw [hstep] at h
      dsimp only at h
      cases hrest : brEntriesLoop G recur actionNum rest
          ((List.range actionNum).map
            (fun a => av0.getD a 0 + e.2 * brValues.getD a 0)) brs2 with
      | none =>
        rw [hrest] at h
        exact absurd h (by simp)
      | some q =>
        obtain ⟨av2, mat2, brs3⟩ := q
        rw [hrest] at h
        simp only [Option.some.injEq, Prod.mk.injEq] at h
        rw [← h.2.2]
        exact ih _ _ _ _ _ hrest k v
          (brActionsLoop_bindings _ _ (fun g2 brs1 u brs2' hr => hrec g2 e.2 brs1 u brs2' hr)
            _ _ _ _ hstep k v hk)

theorem br_bindings {S : Type} (G : GameIntf S) (strategies : Nat → S → List ℚ)
    (infoSets : Key → List (S × ℚ)) :
    ∀ (fuel : Nat) (g : S) (playerIndex : Nat) (po : ℚ) (brs : Brs) (val : ℚ) (brs' : Brs),
      CalculateBestResponseValue G strategies infoSets fuel g playerIndex po brs
        = some (val, brs') →
      ∀ k v, findA brs k = some v → findA brs' k = some v := by
  intro fuel
  induction fuel with
  | zero =>
    intro g playerIndex po brs val brs' h
    exact absurd h (by simp [CalculateBestResponseValue])
  | succ fuel ih =>
    intro g playerIndex po brs val brs' h k v hk
    by_cases hGO : G.isGameOver g = true
    · simp only [CalculateBestResponseValue, hGO, if_true, Option.some.injEq,
        Prod.mk.injEq] at h
      rw [← h.2]
      exact hk
    · have hGO' : G.isGameOver g = false := by
        cases hb : G.isGameOver g
        · rfl
        · exact absurd hb hGO
      by_cases hCh : G.isChanceNode g = true
      · simp only [CalculateBestResponseValue, hGO', hCh, Bool.false_eq_true, if_false,
          if_true] at h
        exact brExpectFold_bindings _ _ _ _
          (fun g2 po2 brs1 u brs2 hr => ih g2 playerIndex po2 brs1 u brs2 hr)
          _ _ _ _ _ h k v hk
      · have hCh' : G.isChanceNode g = false := by
          cases hb : G.isChanceNode g
          · rfl
          · exact absurd hb hCh
        by_cases hP : (G.currentPlayer g == playerIndex) = true
        · simp only [CalculateBestResponseValue, hGO', hCh', hP, Bool.false_eq_true,
            if_false, if_true] at h
          cases hs1 : (match findA brs (G.infoSetStr g) with
            | some _ => some brs
            | none =>
              match brEntriesLoop G
                  (fun g2 po2 brs2 =>
                    CalculateBestResponseValue G strategies infoSets fuel g2 playerIndex po2 brs2)
                  (G.actionNum g) (infoSets (G.infoSetStr g))
                  (List.replicate (G.actionNum g) 0) brs with
              | none => none
              | some (actionValues, _, brs1) =>
                some (setA brs1 (G.infoSetStr g)
                  (onehot (G.actionNum g)
                    (argmaxScan actionValues (List.range (G.actionNum g)) 0)))) with
          | none =>
            rw [hs1] at h
            exact absurd h (by simp)
          | some brs2 =>
            rw [hs1] at h
            dsimp only at h
            have hk2 : findA brs2 k = some v := by
              cases hfind : findA brs (G.infoSetStr g) with
              | some w =>
                rw [hfind] at hs1
                simp only [Option.some.injEq] at hs1
                rw [← hs1]
                exact hk
              | none =>
                rw [hfind] at hs1
                cases hEL : brEntriesLoop G
                    (fun g2 po2 brs2 =>
                      CalculateBestResponseValue G strategies infoSets fuel g2 playerIndex
                        po2 brs2)
                    (G.actionNum g) (infoSets (G.infoSetStr g))
                    (List.replicate (G.actionNum g) 0) brs with
                | none =>
                  rw [hEL] at hs1
                  exact absurd hs1 (by simp)
                | some q =>
                  obtain ⟨av, mat, brs1⟩ := q
                  rw [hEL] at hs1
                  dsimp only at hs1
                  simp only [Option.some.injEq] at hs1
                  rw [← hs1]
                  have hkey : k ≠ G.infoSetStr g := by
                    intro he
                    rw [he, hfind] at hk
                    exact Option.noConfusion hk
                  rw [findA_setA_other _ _ _ _ (Ne.symm hkey)]
                  exact brEntriesLoop_bindings G _ _
                    (fun g2 po2 brs1' u brs2' hr => ih g2 playerIndex po2 brs1' u brs2' hr)
                    _ _ _ _ _ _ hEL k v hk
            cases hAL : brActionsLoop
                (fun g2 brs3 =>
                  CalculateBestResponseValue G strategies infoSets fuel g2 playerIndex po brs3)
                (fun a => G.takeAction g a) (List.range (G.actionNum g)) brs2 with
            | none =>
              rw [hAL] at h
              exact absurd h (by simp)
            | some q =>
              obtain ⟨utils, brs3⟩ := q
              rw [hAL] at h
              dsimp only at h
              have hk3 : findA brs3 k = some v :=
                brActionsLoop_bindings _ _
                  (fun g2 brs1' u brs2' hr => ih g2 playerIndex po brs1' u brs2' hr)
                  _ _ _ _ hAL k v hk2
              cases hfin : findA brs3 (G.infoSetStr g) with
              | none =>
                rw [hfin] at h
                exact absurd h (by simp)
              | some bstrat =>
                rw [hfin] at h
                simp only [Option.some.injEq, Prod.mk.injEq] at h
                rw [← h.2]
                exact hk3
        · simp only [CalculateBestResponseValue, hGO', hCh', hP, Bool.false_eq_true,
            if_false] at h
          exact brExpectFold_bindings _ _ _ _
            (fun g2 po2 brs1 u brs2 hr => ih g2 playerIndex po2 brs1 u brs2 hr)
            _ _ _ _ _ h k v hk

/-- C4: at a node where the actor is the best-responding player and
the info-set key has not been memoized yet, the best-response pass:
computes the per-action values by evaluating, for every `(state', π')`
stored for the key in the reconstructed info sets, the recursion
`BR(applyAction(state', a), p, π')` on all actions (the value rows
`mat`), aggregating `V[a] = Σ_i π'_i · mat[i][a]`; picks
`a* = argmax_a V[a]` where the scan's strict comparison makes the
lowest index win ties (`a* < A`, `V` is maximized at `a*`, and every
lower index is strictly worse); memoizes the one-hot strategy on `a*`
for the key (still bound to it when the call returns); and returns
`Σ_a brStrategy[key][a] · BR(applyAction(state, a), p, π_{-p})` over
the successors of the current state. -/
theorem bestResponse_node_spec {S : Type} (G : GameIntf S) (strategies : Nat → S → List ℚ)
    (infoSets : Key → List (S × ℚ)) (fuel : Nat) (g : S) (playerIndex : Nat) (po : ℚ)
    (brs : Brs) (val : ℚ) (brsOut : Brs)
    (hGO : G.isGameOver g = false)
    (hCh : G.isChanceNode g = false)
    (hP : G.currentPlayer g = playerIndex)
    (hMiss : findA brs (G.infoSetStr g) = none)
    (hA : 0 < G.actionNum g)
    (hOk : CalculateBestResponseValue G strategies infoSets (fuel + 1) g playerIndex po brs
        = some (val, brsOut)) :
    ∃ av : List ℚ, ∃ mat : List (List ℚ), ∃ brs1 : Brs, ∃ utils : List ℚ,
      brEntriesLoop G (fun g2 po2 brs2 =>
          CalculateBestResponseValue G strategies infoSets fuel g2 playerIndex po2 brs2)
        (G.actionNum g) (infoSets (G.infoSetStr g))
        (List.replicate (G.actionNum g) 0) brs = some (av, mat, brs1)
    ∧ mat.length = (infoSets (G.infoSetStr g)).length
    ∧ (∀ a, a < G.actionNum g → av.getD a 0 =
        (((infoSets (G.infoSetStr g)).zip mat).map (fun ew => ew.1.2 * ew.2.getD a 0)).sum)
    ∧ (∀ i, ∀ hi : i < (infoSets (G.infoSetStr g)).length, ∀ a, a < G.actionNum g →
        ∃ brsIn brsOut2 : Brs,
          CalculateBestResponseValue G strategies infoSets fuel
            (G.takeAction ((infoSets (G.infoSetStr g)).get ⟨i, hi⟩).1 a) playerIndex
            ((infoSets (G.infoSetStr g)).get ⟨i, hi⟩).2 brsIn
          = some ((mat.getD i []).getD a 0, brsOut2))
    ∧ argmaxScan av (List.range (G.actionNum g)) 0 < G.actionNum g
    ∧ (∀ a, a < G.actionNum g → av.getD a 0
        ≤ av.getD (argmaxScan av (List.range (G.actionNum g)) 0) 0)
    ∧ (∀ j, j < argmaxScan av (List.range (G.actionNum g)) 0 →
        av.getD j 0 < av.getD (argmaxScan av (List.range (G.actionNum g)) 0) 0)
    ∧ findA brsOut (G.infoSetStr g)
        = some (onehot (G.actionNum g) (argmaxScan av (List.range (G.actionNum g)) 0))
    ∧ brActionsLoop (fun g2 brs3 =>
          CalculateBestResponseValue G strategies infoSets fuel g2 playerIndex po brs3)
        (fun a => G.takeAction g a) (List.range (G.actionNum g))
        (setA brs1 (G.infoSetStr g)
          (onehot (G.actionNum g) (argmaxScan av (List.range (G.actionNum g)) 0)))
        = some (utils, brsOut)
    ∧ utils.length = G.actionNum g
    ∧ (∀ a, a < G.actionNum g → ∃ brsIn brsOut2 : Brs,
        CalculateBestResponseValue G strategies infoSets fuel (G.takeAction g a) playerIndex
          po brsIn = some (utils.getD a 0, brsOut2))
    ∧ val = dotRange utils
        (onehot (G.actionNum g) (argmaxScan av (List.range (G.actionNum g)) 0))
        (G.actionNum g) := by
  have hPb : (G.currentPlayer g == playerIndex) = true := beq_iff_eq.mpr hP
  simp only [CalculateBestResponseValue, hGO, hCh, hPb, Bool.false_eq_true, if_false,
    if_true] at hOk
  rw [hMiss] at hOk
  dsimp only at hOk
  cases hEL : brEntriesLoop G (fun g2 po2 brs2 =>
      CalculateBestResponseValue G strategies infoSets fuel g2 playerIndex po2 brs2)
      (G.actionNum g) (infoSets (G.infoSetStr g))
      (List.replicate (G.actionNum g) 0) brs with
  | none =>
    rw [hEL] at hOk
    exact absurd hOk (by simp)
  | some q =>
    obtain ⟨av, mat, brs1⟩ := q
    rw [hEL] at hOk
    dsimp only at hOk
    cases hAL : brActionsLoop (fun g2 brs3 =>
        CalculateBestResponseValue G strategies infoSets fuel g2 playerIndex po brs3)
        (fun a => G.takeAction g a) (List.range (G.actionNum g))
        (setA brs1 (G.infoSetStr g)
          (onehot (G.actionNum g) (argmaxScan av (List.range (G.actionNum g)) 0))) with
    | none =>
      rw [hAL] at hOk
      exact absurd hOk (by simp)
    | some q2 =>
      obtain ⟨utils, brs3⟩ := q2
      rw [hAL] at hOk
      dsimp only at hOk
      have hone : findA brs3 (G.infoSetStr g)
          = some (onehot (G.actionNum g) (argmaxScan av (List.range (G.actionNum g)) 0)) :=
        brActionsLoop_bindings _ _
          (fun g2 brs1' u brs2' hr =>
            br_bindings G strategies infoSets fuel g2 playerIndex po brs1' u brs2' hr)
          _ _ _ _ hAL _ _ (findA_setA_self _ _ _)
      rw [hone] at hOk
      simp only [Option.some.injEq, Prod.mk.injEq] at hOk
      obtain ⟨hval, hbrs⟩ := hOk
      subst hbrs
      obtain ⟨hmatlen, hsum, hrows⟩ := brEntriesLoop_spec G _ (G.actionNum g) _ _ _ _ _ _ hEL
      obtain ⟨hulen, f, hf0, hfE, hcalls⟩ := brActionsLoop_spec _ _ _ _ _ _ hAL
      obtain ⟨hlt, hmax, hfirst⟩ := argmaxScan_range_spec av (G.actionNum g) hA
      refine ⟨av, mat, brs1, utils, rfl, hmatlen, ?_, ?_, hlt, hmax, hfirst, hone, hAL,
        by simpa using hulen, ?_, hval.symm⟩
      · intro a ha
        rw [hsum a ha, getD_replicate]
        simp [ha]
      · intro i hi a ha
        obtain ⟨brsIn, brsOut2, hloop⟩ := hrows i hi
        obtain ⟨hrl, f2, hf20, hf2E, hcalls2⟩ := brActionsLoop_spec _ _ _ _ _ _ hloop
        have hc := hcalls2 a (by simpa using ha)
        rw [getD_range] at hc
        simp only [ha, if_true] at hc
        exact ⟨f2 a, f2 (a + 1), hc⟩
      · intro a ha
        have hc := hcalls a (by simpa using ha)
        rw [getD_range] at hc
        simp only [ha, if_true] at hc
        exact ⟨f a, f (a + 1), hc⟩

/-- C4 witness: the best-response step at the tiny game's root with a
single stored `(state, 1)` pair — action `1` (value `2`) is chosen over
action `0` (value `1`), the one-hot `[0, 1]` is memoized, and the node
returns `2`. -/
theorem bestResponse_node_spec_witness :
    ∃ av : List ℚ, ∃ mat : List (List ℚ), ∃ brs1 : Brs, ∃ utils : List ℚ,
      brEntriesLoop miniG (fun g2 po2 brs2 =>
          CalculateBestResponseValue miniG miniStrategies miniInfoSets 1 g2 0 po2 brs2)
        2 [((0 : Nat), (1 : ℚ))] (List.replicate 2 0) [] = some (av, mat, brs1)
    ∧ mat.length = 1
    ∧ (∀ a, a < 2 → av.getD a 0 =
        (([((0 : Nat), (1 : ℚ))].zip mat).map (fun ew => ew.1.2 * ew.2.getD a 0)).sum)
    ∧ (∀ i, ∀ hi : i < 1, ∀ a, a < 2 →
        ∃ brsIn brsOut2 : Brs,
          CalculateBestResponseValue miniG miniStrategies miniInfoSets 1
            (miniG.takeAction ([((0 : Nat), (1 : ℚ))].get ⟨i, hi⟩).1 a) 0
            ([((0 : Nat), (1 : ℚ))].get ⟨i, hi⟩).2 brsIn
          = some ((mat.getD i []).getD a 0, brsOut2))
    ∧ argmaxScan av (List.range 2) 0 < 2
    ∧ (∀ a, a < 2 → av.getD a 0 ≤ av.getD (argmaxScan av (List.range 2) 0) 0)
    ∧ (∀ j, j < argmaxScan av (List.range 2) 0 →
        av.getD j 0 < av.getD (argmaxScan av (List.range 2) 0) 0)
    ∧ findA ([([0], [0, 1])] : Brs) [0] = some (onehot 2 (argmaxScan av (List.range 2) 0))
    ∧ brActionsLoop (fun g2 brs3 =>
          CalculateBestResponseValue miniG miniStrategies miniInfoSets 1 g2 0 1 brs3)
        (fun a => miniG.takeAction 0 a) (List.range 2)
        (setA brs1 [0] (onehot 2 (argmaxScan av (List.range 2) 0)))
        = some (utils, ([([0], [0, 1])] : Brs))
    ∧ utils.length = 2
    ∧ (∀ a, a < 2 → ∃ brsIn brsOut2 : Brs,
        CalculateBestResponseValue miniG miniStrategies miniInfoSets 1 (miniG.takeAction 0 a) 0
          1 brsIn = some (utils.getD a 0, brsOut2))
    ∧ (2 : ℚ) = dotRange utils (onehot 2 (argmaxScan av (List.range 2) 0)) 2 :=
  bestResponse_node_spec miniG miniStrategies miniInfoSets 1 0 0 1 [] 2 ([([0], [0, 1])] : Brs)
    rfl rfl rfl rfl (by norm_num [miniG])
    (by norm_num [CalculateBestResponseValue, miniG, miniStrategies, miniInfoSets,
      brEntriesLoop, brActionsLoop, brExpectFold, argmaxScan, onehot, dotRange, findA, setA,
      List.range_succ, List.replicate_succ, List.set_cons_zero, List.set_cons_succ])

end GRASP
